import Mathlib

/-!
Verification of the eZeeDashboard cache-and-aggregate pipeline.

This file gives a shallow embedding of the server code (the timestamped
cache front end `fetchData`, the daily aggregator `computeDailyStats`,
the monthly aggregator `computeMonthlyCalendar`, and the key normaliser
`normKey`) and proves the specified properties about it.  JavaScript
values are modelled by the JSON-shaped inductive `JVal`; JS numbers are
modelled by exact rationals; code paths on which the JavaScript would
throw a `TypeError` are modelled in the `Except Unit` monad.
-/

set_option maxRecDepth 8000

namespace EZee

attribute [local semireducible] Rat.add Rat.mul Rat.sub Rat.inv

/-- Model of a JavaScript/JSON value as it occurs in the service.
`jsUndefined` stands for JS `undefined` (an absent property); the remaining
constructors mirror the JSON data constructors.  Objects are modelled
as association lists in insertion order (keys unique, first match
wins). -/
inductive JVal : Type where
  | jsUndefined : JVal
  | null : JVal
  | bool : Bool → JVal
  | num : ℚ → JVal
  | str : String → JVal
  | arr : List JVal → JVal
  | obj : List (String × JVal) → JVal

/-- Property access `v?.k`: field lookup on objects, `undefined` on
everything else (optional chaining turns null/undefined into
`undefined`, and property access on the other primitives yields
`undefined` for the payload field names used by this code). -/
def JVal.get : JVal → String → JVal
  | .obj fs, k => ((fs.find? (fun p => p.1 == k)).map Prod.snd).getD .jsUndefined
  | _, _ => .jsUndefined

/-- JS truthiness: `undefined`, `null`, `false`, `0` and `""` are falsy,
everything else (of the shapes modelled here) is truthy. -/
def JVal.truthy : JVal → Bool
  | .jsUndefined => false
  | .null => false
  | .bool b => b
  | .num q => decide (q ≠ 0)
  | .str s => decide (s ≠ "")
  | .arr _ => true
  | .obj _ => true

/-- JS `a || b`. -/
def jsOr (a b : JVal) : JVal := if a.truthy then a else b

/-- JS `Array.isArray(v) ? v : []`, the defensive default used
throughout the aggregators. -/
def asArray : JVal → List JVal
  | .arr xs => xs
  | _ => []

/-- Whitespace as trimmed by JS `String.prototype.trim` (the common
whitespace characters occurring in payload strings). -/
def isWS (c : Char) : Bool := c == ' ' || c == '\t' || c == '\n' || c == '\r'

/-- Trim leading and trailing whitespace from a character list. -/
def trimWS (cs : List Char) : List Char :=
  ((cs.dropWhile isWS).reverse.dropWhile isWS).reverse

/-- Model of JS `s.trim()`. -/
def jsTrim (s : String) : String := ⟨trimWS s.data⟩

/-- ASCII lower-casing of one character (the payload keys normalised by
the service are ASCII). -/
def lowerChar (c : Char) : Char :=
  if 65 ≤ c.toNat ∧ c.toNat ≤ 90 then Char.ofNat (c.toNat + 32) else c

/-- Model of JS `s.toLowerCase()` on the ASCII strings occurring as
source/nationality values. -/
def jsToLower (s : String) : String := ⟨s.data.map lowerChar⟩

/-- Model of the JS expression `(v || "")` at a point where the result
is then used as a string (a method such as `.trim()` or `.split()` is
called on it): a falsy value is replaced by `""`, a truthy string is
kept, and a truthy non-string makes the subsequent method call throw a
`TypeError`, modelled as `Except.error`. -/
def JVal.orEmptyStr : JVal → Except Unit String
  | .str s => .ok s
  | v => if v.truthy then .error () else .ok ""

/-- Model of `(v || "").trim()`. -/
def jsStrTrim (v : JVal) : Except Unit String := (JVal.orEmptyStr v).map jsTrim

/-- Decimal digit value of a character, checked on the code unit as JS
number parsing does. -/
def digitVal (c : Char) : Option ℕ :=
  if 48 ≤ c.toNat ∧ c.toNat ≤ 57 then some (c.toNat - 48) else none

/-- Value of a non-empty all-digit character list. -/
def digitsVal : List Char → Option ℕ
  | [] => none
  | [c] => digitVal c
  | c :: cs =>
    match digitVal c, digitsVal cs with
    | some d, some r => some (d * 10 ^ cs.length + r)
    | _, _ => none

/-- Unsigned decimal numeral: an optional integer part, an optional
single dot, an optional fraction part (at least one side present). -/
def parseUnsigned (cs : List Char) : Option ℚ :=
  match cs.dropWhile (fun c => c != '.') with
  | [] => (digitsVal (cs.takeWhile (fun c => c != '.'))).map (fun n => (n : ℚ))
  | _ :: f =>
    if f.contains '.' then none
    else if cs.takeWhile (fun c => c != '.') = [] ∧ f = [] then none
    else
      match (if cs.takeWhile (fun c => c != '.') = [] then some 0
             else digitsVal (cs.takeWhile (fun c => c != '.'))),
            (if f = [] then some 0 else digitsVal f) with
      | some ni, some nf => some ((ni : ℚ) + (nf : ℚ) / (10 : ℚ) ^ f.length)
      | _, _ => none

/-- Model of JS string-to-number conversion on the decimal numeral
shapes occurring in payloads: surrounding whitespace is ignored, the
empty string is `0`, a leading sign is honoured; `none` stands for
`NaN`. -/
def parseNumber (cs : List Char) : Option ℚ :=
  match trimWS cs with
  | [] => some 0
  | c :: rest =>
    if c == '-' then (parseUnsigned rest).map (fun q => -q)
    else if c == '+' then parseUnsigned rest
    else parseUnsigned (c :: rest)

/-- Model of the JS `Number(v)` coercion on the value shapes occurring
in payloads; `none` stands for `NaN`.  Arrays and objects are modelled
as `NaN` (their `toPrimitive` round trip is not exercised by the
claims). -/
def jsNumber : JVal → Option ℚ
  | .jsUndefined => none
  | .null => some 0
  | .bool b => some (if b then 1 else 0)
  | .num q => some q
  | .str s => parseNumber s.data
  | .arr _ => none
  | .obj _ => none

/-- Model of `Number(v) || 0`: `NaN` and `0` both fall through to `0`. -/
def numOr0 (v : JVal) : ℚ := (jsNumber v).getD 0

/-- Split a character list at every occurrence of `sep`, as JS
`s.split(sep)` does for a one-character separator (the empty string
splits to `[""]`). -/
def splitOnChar (sep : Char) : List Char → List (List Char)
  | [] => [[]]
  | c :: rest =>
    let r := splitOnChar sep rest
    if c == sep then [] :: r
    else
      match r with
      | [] => [[c]]
      | h :: t => (c :: h) :: t

/-- Model of `s.split(sep)[0]` for a one-character separator. -/
def firstField (sep : Char) (s : String) : String :=
  ⟨(splitOnChar sep s.data).headD []⟩

/-- Does the string `s` start with the string `pre`?  Model of JS
`s.startsWith(pre)`. -/
def listStarts : List Char → List Char → Bool
  | [], _ => true
  | _ :: _, [] => false
  | p :: ps, x :: xs => p == x && listStarts ps xs

def jsStartsWith (s pre : String) : Bool := listStarts pre.data s.data

/-! Association-list helpers modelling plain JS objects used as maps
(insertion order, unique keys). -/

def alookup {β : Type} : List (String × β) → String → Option β
  | [], _ => none
  | p :: rest, k => if p.1 = k then some p.2 else alookup rest k

def hasA {β : Type} (m : List (String × β)) (k : String) : Bool :=
  (alookup m k).isSome

def aget {β : Type} (d : β) (m : List (String × β)) (k : String) : β :=
  (alookup m k).getD d

/-- Replace the (unique) entry at key `k` by applying `f`; no-op when
the key is absent. -/
def amodify {β : Type} : List (String × β) → String → (β → β) → List (String × β)
  | [], _, _ => []
  | p :: rest, k, f =>
    if p.1 = k then (p.1, f p.2) :: rest else p :: amodify rest k f

/-- Model of `if (!m[k]) m[k] = d`: append a default entry when the key
is absent (JS object insertion order appends new keys at the end). -/
def ensureA {β : Type} (d : β) (m : List (String × β)) (k : String) :
    List (String × β) :=
  if hasA m k then m else m ++ [(k, d)]

/-- Ensure the key exists, then modify it. -/
def touchA {β : Type} (d : β) (m : List (String × β)) (k : String) (f : β → β) :
    List (String × β) :=
  amodify (ensureA d m k) k f

/-- Sum of a valuation of the entries of an association list. -/
def asum {β : Type} {M : Type} [AddCommMonoid M] (w : β → M)
    (m : List (String × β)) : M :=
  (m.map (fun p => w p.2)).sum

/-- Modify the element at index `i` of a list; no-op past the end.
Model of an in-place JS array element update. -/
def modifyAt {β : Type} : List β → ℕ → (β → β) → List β
  | [], _, _ => []
  | x :: xs, 0, f => f x :: xs
  | x :: xs, n + 1, f => x :: modifyAt xs n f

/-! The daily aggregator `computeDailyStats`. -/

/-- Key normalisation `normKey` from the source: non-strings become
`"unknown"`, strings are trimmed and lower-cased, an empty trim result
becomes `"unknown"`. -/
def normKey (v : JVal) : String :=
  match v with
  | .str s =>
    let t := jsTrim s
    if t = "" then "unknown" else jsToLower t
  | _ => "unknown"

/-- Modelled from the spec wording of key normalisation: "lower-case,
trimmed; empty or non-string becomes unknown", used to compare with the
source definition `normKey`. -/
def normKeySpec (v : JVal) : String :=
  match v with
  | .str s => if jsTrim s = "" then "unknown" else jsToLower (jsTrim s)
  | _ => "unknown"

/-- One per-day, per-group accumulator row
`{reservationCount, revenue, nights, ADR}`. -/
structure Group where
  reservationCount : ℕ
  revenue : ℚ
  nights : ℕ
  ADR : ℚ
deriving DecidableEq, Repr

def zeroGroup : Group := ⟨0, 0, 0, 0⟩

abbrev GroupMap := List (String × Group)

def getG (m : GroupMap) (k : String) : Group := aget zeroGroup m k

def srcKey (b : JVal) : String := normKey (b.get "Source")

def natKey (b : JVal) : String := normKey (b.get "Nationality")

/-- The per-matching-row group update: `revenue += rent; nights += 1`. -/
def addRowG (rent : ℚ) (g : Group) : Group :=
  { g with revenue := g.revenue + rent, nights := g.nights + 1 }

/-- The once-per-transaction group update:
`reservationCount += 1`. -/
def bumpResG (g : Group) : Group :=
  { g with reservationCount := g.reservationCount + 1 }

/-- Mutable state of the daily reservation loop. -/
structure DailyAcc where
  reservationCount : ℕ
  revenue : ℚ
  nights : ℕ
  sources : GroupMap
  nationalities : GroupMap
deriving DecidableEq, Repr

def initAcc : DailyAcc := ⟨0, 0, 0, [], []⟩

/-- Effect of one rental-info row whose effective date matched the
target day: accumulate revenue and nights overall and in the source and
nationality groups (creating the group rows when absent). -/
def applyRow (b ri : JVal) (a : DailyAcc) : DailyAcc :=
  let rent := numOr0 (ri.get "Rent")
  { a with
    revenue := a.revenue + rent,
    nights := a.nights + 1,
    sources := touchA zeroGroup a.sources (srcKey b) (addRowG rent),
    nationalities := touchA zeroGroup a.nationalities (natKey b) (addRowG rent) }

/-- One iteration of the inner `for (const ri of rental)` loop.  The
Boolean component is `hadDayRow`.  `(ri?.EffectiveDate || "").trim()`
throws when the field is a truthy non-string. -/
def rowStep (day : String) (b : JVal) (st : DailyAcc × Bool) (ri : JVal) :
    Except Unit (DailyAcc × Bool) :=
  match jsStrTrim (ri.get "EffectiveDate") with
  | .error e => .error e
  | .ok eff => if eff = day then .ok (applyRow b ri st.1, true) else .ok st

/-- Model of `m[k].reservationCount += 1` with no preceding existence
check: reading a property of `undefined` throws. -/
def bumpResT (m : GroupMap) (k : String) : Except Unit GroupMap :=
  if hasA m k then .ok (amodify m k bumpResG) else .error ()

/-- One iteration of the `for (const b of trans)` loop: run the rental
rows, then count the transaction once per grouping if it had any
matching row that day. -/
def tranStep (day : String) (acc : DailyAcc) (b : JVal) : Except Unit DailyAcc :=
  match (asArray (b.get "RentalInfo")).foldlM (rowStep day b) (acc, false) with
  | .error e => .error e
  | .ok (a, had) =>
    if had then
      match bumpResT a.sources (srcKey b) with
      | .error e => .error e
      | .ok s =>
        match bumpResT a.nationalities (natKey b) with
        | .error e => .error e
        | .ok n =>
          .ok { a with
                reservationCount := a.reservationCount + 1,
                sources := s, nationalities := n }
    else .ok a

/-- One iteration of the outer `for (const r of Reservation)` loop. -/
def resStep (day : String) (acc : DailyAcc) (r : JVal) : Except Unit DailyAcc :=
  (asArray (r.get "BookingTran")).foldlM (tranStep day) acc

/-- One iteration of the cancellation loop:
`(c?.Canceldatetime || "").split(" ")[0] === day`. -/
def cancelStep (day : String) (cnt : ℕ) (c : JVal) : Except Unit ℕ :=
  match JVal.orEmptyStr (c.get "Canceldatetime") with
  | .error e => .error e
  | .ok s => .ok (if firstField ' ' s = day then cnt + 1 else cnt)

/-- `data?.Reservations || {}` followed by the `Array.isArray` guard on
its `Reservation` field. -/
def reservationsOf (data : JVal) : List JVal :=
  asArray ((jsOr (data.get "Reservations") (.obj [])).get "Reservation")

/-- The guarded `CancelReservation` list. -/
def cancelsOf (data : JVal) : List JVal :=
  asArray ((jsOr (data.get "Reservations") (.obj [])).get "CancelReservation")

/-- ADR finalisation applied to every group after accumulation:
`ADR = nights === 0 ? 0 : revenue / nights`. -/
def finalizeG (g : Group) : Group :=
  { g with ADR := if g.nights = 0 then 0 else g.revenue / (g.nights : ℚ) }

/-- The `stats.all` record of the daily output. -/
structure DailyAll where
  Day : String
  Reservations : ℕ
  Revenue : ℚ
  Nights : ℕ
  ADR : ℚ
  Cancellations : ℕ
deriving DecidableEq, Repr

/-- The `stats` object returned by `computeDailyStats`. -/
structure DailyStats where
  all : DailyAll
  sources : GroupMap
  nationalities : GroupMap
deriving DecidableEq, Repr

/-- The daily aggregator `computeDailyStats(data, day)` from the
source.  The JS wraps the result as `{ stats: ... }`; the `stats`
object is modelled directly. -/
def computeDailyStats (data : JVal) (day : String) : Except Unit DailyStats :=
  match (reservationsOf data).foldlM (resStep day) initAcc with
  | .error e => .error e
  | .ok acc =>
    match (cancelsOf data).foldlM (cancelStep day) 0 with
    | .error e => .error e
    | .ok cancels =>
      .ok
        { all :=
            { Day := day
              Reservations := acc.reservationCount
              Revenue := acc.revenue
              Nights := acc.nights
              ADR := if acc.nights = 0 then 0 else acc.revenue / (acc.nights : ℚ)
              Cancellations := cancels }
          sources := acc.sources.map (fun p => (p.1, finalizeG p.2))
          nationalities := acc.nationalities.map (fun p => (p.1, finalizeG p.2)) }

/-! Specification-level quantities about the daily aggregation, used to
state the claims. -/

/-- The rental-info rows of one transaction. -/
def tranRows (b : JVal) : List JVal := asArray (b.get "RentalInfo")

/-- Does this rental-info row target the given day (its effective date,
defaulted and trimmed exactly as the code does, equals the day)? -/
def rowMatches (day : String) (ri : JVal) : Bool :=
  match jsStrTrim (ri.get "EffectiveDate") with
  | .ok eff => eff == day
  | .error _ => false

/-- Did the transaction have any rental-info row dated the target day? -/
def hasDayRow (day : String) (b : JVal) : Bool :=
  (tranRows b).any (rowMatches day)

/-- Number of rental-info rows of the transaction dated the target day. -/
def matchCount (day : String) (b : JVal) : ℕ :=
  (tranRows b).countP (rowMatches day)

/-- The rent contribution of one rental-info row. -/
def rowRent (ri : JVal) : ℚ := numOr0 (ri.get "Rent")

/-- Total rent of the transaction's rows dated the target day. -/
def rentSum (day : String) (b : JVal) : ℚ :=
  (((tranRows b).filter (rowMatches day)).map rowRent).sum

/-- All booking transactions of the payload, in iteration order. -/
def tranList (data : JVal) : List JVal :=
  (reservationsOf data).flatMap (fun r => asArray (r.get "BookingTran"))

/-- Does this cancellation record count for the given day (the date
portion of its `Canceldatetime`, before the first space, equals the
day)? -/
def cancelMatches (day : String) (c : JVal) : Bool :=
  match JVal.orEmptyStr (c.get "Canceldatetime") with
  | .ok s => firstField ' ' s == day
  | .error _ => false

/-- Total nights over the groups of a grouping map. -/
def sumNightsG (m : GroupMap) : ℕ := asum (fun g => g.nights) m

/-- The expected per-transaction effect on the group of its own key. -/
def tranGroupAdd (day : String) (b : JVal) (g : Group) : Group :=
  if hasDayRow day b then
    { g with
      reservationCount := g.reservationCount + 1,
      nights := g.nights + matchCount day b,
      revenue := g.revenue + rentSum day b }
  else g

/-- Is this value safe to use in the `(v || "").trim()` idiom, i.e. is
it a string or falsy?  A truthy non-string makes the aggregators throw. -/
def strSafe (v : JVal) : Bool :=
  match v with
  | .str _ => true
  | v => !v.truthy

/-- All date-like fields read by `computeDailyStats` are strings or
falsy. -/
def dailySafe (data : JVal) : Bool :=
  ((tranList data).all fun b =>
    (tranRows b).all fun ri => strSafe (ri.get "EffectiveDate")) &&
  ((cancelsOf data).all fun c => strSafe (c.get "Canceldatetime"))

/-! The monthly aggregator `computeMonthlyCalendar`. -/

def isLeapYear (Y : ℕ) : Bool :=
  (Y % 4 == 0 && Y % 100 != 0) || Y % 400 == 0

/-- Model of `new Date(Y, M, 0).getDate()` for calendar month numbers
`1 ≤ M ≤ 12`: the number of days of month `M` of year `Y` in the
Gregorian calendar. -/
def daysInMonth (Y M : ℕ) : ℕ :=
  if M = 2 then (if isLeapYear Y then 29 else 28)
  else if M = 4 ∨ M = 6 ∨ M = 9 ∨ M = 11 then 30
  else 31

def pad2 (n : ℕ) : String := if n < 10 then "0" ++ toString n else toString n

def pad4 (n : ℕ) : String :=
  if n < 10 then "000" ++ toString n
  else if n < 100 then "00" ++ toString n
  else if n < 1000 then "0" ++ toString n
  else toString n

/-- The `YYYY-MM` month key, as produced by the route guard
(`/^\d{4}-\d{2}$/`) that feeds `computeMonthlyCalendar`. -/
def monthStr (Y M : ℕ) : String := pad4 Y ++ "-" ++ pad2 M

/-- One day cell of a room-type calendar: `{booked, rent}`. -/
structure DayCell where
  booked : Bool
  rent : ℚ
deriving DecidableEq, Repr

/-- The running totals of one room-type calendar. -/
structure RoomTotals where
  nights : ℕ
  revenue : ℚ
deriving DecidableEq, Repr

/-- One room-type calendar entry
`{code, name, days, totals}`.  `code` and `name` keep the raw payload
values, as the JS does. -/
structure RoomCal where
  code : JVal
  name : JVal
  days : List DayCell
  totals : RoomTotals

abbrev RoomMap := List (String × RoomCal)

/-- One entry of `totalsByDay`. -/
structure DayTotal where
  day : ℕ
  revenue : ℚ
  nights : ℕ
deriving DecidableEq, Repr

/-- The monthly `summary` object. -/
structure MonthlySummary where
  month : String
  daysInMonth : ℕ
  totalRooms : ℕ
  totalNights : ℕ
  totalRevenue : ℚ
deriving DecidableEq, Repr

/-- The result of `computeMonthlyCalendar`:
`{ summary, calendar: { rooms, totalsByDay } }`. -/
structure MonthlyResult where
  summary : MonthlySummary
  rooms : RoomMap
  totalsByDay : List DayTotal

/-- JS property-key coercion `String(v)` for the value shapes occurring
as room-type codes (the string cases are the only ones the payloads
exercise; arrays and objects are modelled by their stereotypical
JS renderings). -/
def propKey : JVal → String
  | .str s => s
  | .num q => toString q
  | .bool b => if b then "true" else "false"
  | .null => "null"
  | .jsUndefined => "undefined"
  | .arr _ => ""
  | .obj _ => "[object Object]"

/-- The room-type code value
`ri?.RoomTypeCode || b?.RoomTypeCode || "unknown"`. -/
def roomCodeV (b ri : JVal) : JVal :=
  jsOr (ri.get "RoomTypeCode") (jsOr (b.get "RoomTypeCode") (.str "unknown"))

/-- The room-type name value
`ri?.RoomTypeName || b?.RoomTypeName || "Unknown Room Type"`. -/
def roomNameV (b ri : JVal) : JVal :=
  jsOr (ri.get "RoomTypeName") (jsOr (b.get "RoomTypeName") (.str "Unknown Room Type"))

/-- A freshly created room-type calendar: one unbooked zero-rent cell
per day of the month and zero totals. -/
def newRoom (codeV nameV : JVal) (dim : ℕ) : RoomCal :=
  { code := codeV, name := nameV,
    days := List.replicate dim ⟨false, 0⟩,
    totals := ⟨0, 0⟩ }

/-- Mark a day for a room type: set the cell booked, accrue rent into
the cell and into the room totals.  No-op when the key is absent (it
never is at the call site: the entry was just ensured). -/
def markRoom (m : RoomMap) (k : String) (i : ℕ) (rent : ℚ) : RoomMap :=
  amodify m k fun rc =>
    { rc with
      days := modifyAt rc.days i (fun c => ⟨true, c.rent + rent⟩),
      totals := ⟨rc.totals.nights + 1, rc.totals.revenue + rent⟩ }

/-- Accrue one night and its rent into the per-day totals. -/
def bumpDay (l : List DayTotal) (i : ℕ) (rent : ℚ) : List DayTotal :=
  modifyAt l i (fun d => { d with nights := d.nights + 1, revenue := d.revenue + rent })

/-- The initial `totalsByDay` array: `{day: i+1, revenue: 0, nights: 0}`
for each day of the month. -/
def initByDay (dim : ℕ) : List DayTotal :=
  (List.range dim).map (fun i => ⟨i + 1, 0, 0⟩)

/-- One iteration of the monthly rental-row loop.  The room-type entry
is created (when absent) as soon as the effective date matches the
month, before the day-of-month range check; a fractional in-range day
number would make the JS index an absent array property and throw, which
is modelled as an error (and proved unreachable). -/
def monthlyRowStep (month : String) (dim : ℕ) (b : JVal)
    (st : RoomMap × List DayTotal) (ri : JVal) :
    Except Unit (RoomMap × List DayTotal) :=
  match jsStrTrim (ri.get "EffectiveDate") with
  | .error e => .error e
  | .ok eff =>
    if !jsStartsWith eff (month ++ "-") then .ok st
    else
      let key := propKey (roomCodeV b ri)
      let rooms := ensureA (newRoom (roomCodeV b ri) (roomNameV b ri) dim) st.1 key
      match parseNumber ((eff.data.drop 8).take 2) with
      | none => .ok (rooms, st.2)
      | some d =>
        if d < 1 ∨ (dim : ℚ) < d then .ok (rooms, st.2)
        else if d.den = 1 then
          let dn := d.num.toNat
          let rent := numOr0 (ri.get "Rent")
          .ok (markRoom rooms key (dn - 1) rent, bumpDay st.2 (dn - 1) rent)
        else .error ()

/-- One iteration of the monthly transaction loop. -/
def monthlyTranStep (month : String) (dim : ℕ)
    (st : RoomMap × List DayTotal) (b : JVal) :
    Except Unit (RoomMap × List DayTotal) :=
  (asArray (b.get "RentalInfo")).foldlM (monthlyRowStep month dim b) st

/-- One iteration of the monthly reservation loop. -/
def monthlyResStep (month : String) (dim : ℕ)
    (st : RoomMap × List DayTotal) (r : JVal) :
    Except Unit (RoomMap × List DayTotal) :=
  (asArray (r.get "BookingTran")).foldlM (monthlyTranStep month dim) st

/-- The monthly aggregator `computeMonthlyCalendar(data, month)` from
the source, with the month key given as the pair `(Y, M)`; the JS
receives the string `"YYYY-MM"` (already validated by the route guard),
splits it into `Y` and `M` and derives `daysInMonth` from the calendar.
Here the month string is reconstructed as `monthStr Y M`. -/
def computeMonthlyCalendar (data : JVal) (Y M : ℕ) : Except Unit MonthlyResult :=
  let month := monthStr Y M
  let dim := daysInMonth Y M
  match (reservationsOf data).foldlM (monthlyResStep month dim) ([], initByDay dim) with
  | .error e => .error e
  | .ok st =>
    .ok
      { summary :=
          { month := month
            daysInMonth := dim
            totalRooms := st.1.length
            totalNights := st.2.foldl (fun s d => s + d.nights) 0
            totalRevenue := st.2.foldl (fun s d => s + d.revenue) 0 }
        rooms := st.1
        totalsByDay := st.2 }

/-- All effective-date fields read by `computeMonthlyCalendar` are
strings or falsy. -/
def monthlySafe (data : JVal) : Bool :=
  (tranList data).all fun b =>
    (tranRows b).all fun ri => strSafe (ri.get "EffectiveDate")

/-! The cache-first fetch `fetchData`. -/

/-- Observable state of the cache file when `fetchData` runs:
the read may fail (`missing`), the file may be empty (falsy raw text,
skipped without parsing), `JSON.parse` may throw (`corrupt`), or the
file parses to a value. -/
inductive CacheState where
  | missing : CacheState
  | empty : CacheState
  | corrupt : CacheState
  | parsed : JVal → CacheState

/-- Outcome of the single upstream HTTP round trip: a success status
with a parseable JSON body, a success status whose body fails to parse
(`r.json()` rejects), or a non-success status with the body text and
status text. -/
inductive Upstream where
  | success : JVal → Upstream
  | badBody : Upstream
  | httpError : ℕ → String → String → Upstream

/-- Failures surfaced by `fetchData`. -/
inductive FetchErr where
  | upstream : ℕ → String → FetchErr
  | parse : FetchErr
deriving DecidableEq, Repr

/-- What one call of `fetchData` did: its returned value or failure,
whether the upstream endpoint was called at all, and the payload
written back to the cache (fire-and-forget) if any. -/
structure FetchOutcome where
  result : Except FetchErr JVal
  upstreamCalled : Bool
  cacheWrite : Option JVal

/-- The freshness test of the source:
`cacheObj.timestamp && Date.now() - cacheObj.timestamp < timeoutMs`.
A non-numeric timestamp makes the subtraction `NaN` and the comparison
false. -/
def cacheHit (cache : CacheState) (now timeout : ℤ) : Bool :=
  match cache with
  | .parsed v =>
    let ts := v.get "timestamp"
    ts.truthy &&
      (match jsNumber ts with
       | some q => decide ((now : ℚ) - q < (timeout : ℚ))
       | none => false)
  | _ => false

/-- The upstream leg of `fetchData`: on a non-success status it throws
an error carrying the status and `errorText || statusText`; on a
success status it parses the body and schedules the cache write. -/
def doUpstream (up : Upstream) : FetchOutcome :=
  match up with
  | .success body =>
    { result := .ok body, upstreamCalled := true, cacheWrite := some body }
  | .badBody =>
    { result := .error .parse, upstreamCalled := true, cacheWrite := none }
  | .httpError status body stext =>
    { result := .error (.upstream status (if body = "" then stext else body)),
      upstreamCalled := true, cacheWrite := none }

/-- The fetch orchestrator `fetchData` from the source: try the cache,
return its `data` on a hit, otherwise go upstream.  A missing, empty or
corrupt cache file falls through to the upstream call. -/
def fetchData (cache : CacheState) (now timeout : ℤ) (up : Upstream) :
    FetchOutcome :=
  if cacheHit cache now timeout then
    match cache with
    | .parsed v =>
      { result := .ok (v.get "data"), upstreamCalled := false, cacheWrite := none }
    | _ => doUpstream up
  else doUpstream up

/-! Concrete payloads used by witnesses and counterexamples. -/

/-- The spec's worked example: one reservation, one transaction with
source `"Booking.com"`, two rental-info rows dated `2025-08-10` with
rents 100 and 50. -/
def examplePayload : JVal :=
  .obj [("Reservations", .obj [("Reservation", .arr [
    .obj [("BookingTran", .arr [
      .obj [("Source", .str "Booking.com"),
            ("RentalInfo", .arr [
              .obj [("EffectiveDate", .str "2025-08-10"), ("Rent", .num 100)],
              .obj [("EffectiveDate", .str "2025-08-10"), ("Rent", .num 50)]])]])]])])]

/-- The daily stats the worked example must produce for 2025-08-10. -/
def exampleDaily : DailyStats :=
  { all := { Day := "2025-08-10", Reservations := 1, Revenue := 150,
             Nights := 2, ADR := 75, Cancellations := 0 }
    sources := [("booking.com", ⟨1, 150, 2, 75⟩)]
    nationalities := [("unknown", ⟨1, 150, 2, 75⟩)] }

/-- A payload whose only rental-info row has a truthy non-string
effective date (the number 5): `(ri?.EffectiveDate || "").trim()`
throws on it. -/
def badDatePayload : JVal :=
  .obj [("Reservations", .obj [("Reservation", .arr [
    .obj [("BookingTran", .arr [
      .obj [("RentalInfo", .arr [
        .obj [("EffectiveDate", .num 5), ("Rent", .num 100)]])]])]])])]

/-- A payload with a single cancellation record dated
`2025-08-10 14:00`. -/
def cancelPayload : JVal :=
  .obj [("Reservations", .obj [("CancelReservation", .arr [
    .obj [("Canceldatetime", .str "2025-08-10 14:00")]])])]

/-- A rental-info row lying in August 2025 but with day component 99,
outside the month's day range. -/
def strayRow : JVal :=
  .obj [("EffectiveDate", .str "2025-08-99"),
        ("RoomTypeCode", .str "A"),
        ("Rent", .num 100)]

/-- The transaction holding only `strayRow`. -/
def strayTran : JVal := .obj [("RentalInfo", .arr [strayRow])]

/-- A payload whose single rental-info row is `strayRow`. -/
def strayDayPayload : JVal :=
  .obj [("Reservations", .obj [("Reservation", .arr [
    .obj [("BookingTran", .arr [strayTran])]])])]

/-- Total nights over the room calendars. -/
def sumRoomNights (m : RoomMap) : ℕ := asum (fun rc => rc.totals.nights) m

/-- Total nights over the per-day totals. -/
def sumDayNights (l : List DayTotal) : ℕ := (l.map (fun d => d.nights)).sum

/-- The nights-balance invariant of the monthly loop state: the rooms'
total nights equal the per-day total nights, and the per-day array
keeps its length. -/
def MonthlyInv (dim : ℕ) (st : RoomMap × List DayTotal) : Prop :=
  sumRoomNights st.1 = sumDayNights st.2 ∧ st.2.length = dim

/-- The expected monthly result for `strayDayPayload` over August 2025:
the out-of-range row creates the room entry but contributes nothing. -/
def strayDayResult : MonthlyResult :=
  { summary := { month := monthStr 2025 8, daysInMonth := 31, totalRooms := 1,
                 totalNights := 0, totalRevenue := 0 },
    rooms := [("A", { code := .str "A", name := .str "Unknown Room Type",
                      days := List.replicate 31 ⟨false, 0⟩, totals := ⟨0, 0⟩ })],
    totalsByDay := initByDay 31 }

/-! Plumbing lemmas for `Except`-valued folds. -/

theorem except_bind_ok {ε α β : Type} {x : Except ε α} {f : α → Except ε β} {b : β}
    (h : (x >>= f) = .ok b) : ∃ a, x = .ok a ∧ f a = .ok b := by
  cases x with
  | error e => simp [Bind.bind, Except.bind] at h
  | ok a => exact ⟨a, rfl, by simpa [Bind.bind, Except.bind] using h⟩

theorem foldlM_ok_nil {α σ : Type} {f : σ → α → Except Unit σ} {a b : σ}
    (h : List.foldlM f a ([] : List α) = .ok b) : a = b := by
  simpa [List.foldlM, pure, Except.pure] using h

theorem foldlM_ok_cons {α σ : Type} {f : σ → α → Except Unit σ} {x : α}
    {xs : List α} {a b : σ}
    (h : List.foldlM f a (x :: xs) = .ok b) :
    ∃ mid, f a x = .ok mid ∧ List.foldlM f mid xs = .ok b := by
  rw [List.foldlM_cons] at h
  exact except_bind_ok h

/-- An invariant preserved by every successful step of an
`Except`-valued left fold is preserved by the whole fold. -/
theorem foldlM_inv {α σ : Type} (P : σ → Prop) {f : σ → α → Except Unit σ}
    (hstep : ∀ a x a', f a x = .ok a' → P a → P a') :
    ∀ (l : List α) (a b : σ), List.foldlM f a l = .ok b → P a → P b := by
  intro l
  induction l with
  | nil => intro a b h hp; rwa [← foldlM_ok_nil h]
  | cons x xs ih =>
    intro a b h hp
    obtain ⟨mid, h1, h2⟩ := foldlM_ok_cons h
    exact ih mid b h2 (hstep a x mid h1 hp)

/-! Lemmas about the association-list helpers. -/

theorem alookup_append_of_some {β : Type} (d : β) (k k' : String) {v : β} :
    ∀ m : List (String × β), alookup m k' = some v →
      alookup (m ++ [(k, d)]) k' = some v := by
  intro m
  induction m with
  | nil => intro h; simp [alookup] at h
  | cons p rest ih =>
    intro h
    simp only [List.cons_append, alookup] at h ⊢
    by_cases hk' : p.1 = k'
    · simpa [hk'] using h
    · simpa [hk'] using ih (by simpa [hk'] using h)

theorem alookup_append_of_none {β : Type} (d : β) (k k' : String) :
    ∀ m : List (String × β), alookup m k' = none →
      alookup (m ++ [(k, d)]) k' = if k = k' then some d else none := by
  intro m
  induction m with
  | nil => intro _; simp [alookup, eq_comm]
  | cons p rest ih =>
    intro h
    simp only [List.cons_append, alookup] at h ⊢
    by_cases hk' : p.1 = k'
    · simp [hk'] at h
    · simpa [hk'] using ih (by simpa [hk'] using h)

theorem alookup_ensure_self {β : Type} (d : β) (m : List (String × β)) (k : String) :
    alookup (ensureA d m k) k = some (aget d m k) := by
  unfold ensureA hasA aget
  cases h : alookup m k with
  | none => simp [alookup_append_of_none d k k m h, h]
  | some v => simp [h]

theorem alookup_ensure_ne {β : Type} (d : β) (m : List (String × β)) {k k' : String}
    (hne : k ≠ k') : alookup (ensureA d m k) k' = alookup m k' := by
  unfold ensureA hasA
  cases h : alookup m k with
  | none =>
    cases h' : alookup m k' with
    | none => simp [alookup_append_of_none d k k' m h', h', hne]
    | some v => simp [alookup_append_of_some d k k' m h', h']
  | some v => simp

theorem hasA_ensure_self {β : Type} (d : β) (m : List (String × β)) (k : String) :
    hasA (ensureA d m k) k = true := by
  simp [hasA, alookup_ensure_self]

theorem alookup_amodify_self {β : Type} (f : β → β) (k : String) :
    ∀ m : List (String × β),
      alookup (amodify m k f) k = (alookup m k).map f := by
  intro m
  induction m with
  | nil => simp [alookup, amodify]
  | cons p rest ih =>
    simp only [amodify]
    by_cases hp : p.1 = k
    · simp [alookup, hp]
    · simp [alookup, hp, ih]

theorem alookup_amodify_ne {β : Type} (f : β → β) {k k' : String}
    (hne : k ≠ k') :
    ∀ m : List (String × β),
      alookup (amodify m k f) k' = alookup m k' := by
  intro m
  induction m with
  | nil => simp [alookup, amodify]
  | cons p rest ih =>
    simp only [amodify]
    by_cases hp : p.1 = k
    · subst hp
      simp [alookup, hne]
    · simp only [if_neg hp, alookup]
      by_cases hp' : p.1 = k'
      · simp [hp']
      · simp [hp', ih]

theorem aget_touch_self {β : Type} (d : β) (m : List (String × β)) (k : String)
    (f : β → β) : aget d (touchA d m k f) k = f (aget d m k) := by
  unfold touchA
  unfold aget
  rw [alookup_amodify_self, alookup_ensure_self]
  rfl

theorem aget_touch_ne {β : Type} (d : β) (m : List (String × β)) {k k' : String}
    (f : β → β) (hne : k ≠ k') : aget d (touchA d m k f) k' = aget d m k' := by
  unfold touchA aget
  rw [alookup_amodify_ne f hne, alookup_ensure_ne d m hne]

theorem hasA_touch_self {β : Type} (d : β) (m : List (String × β)) (k : String)
    (f : β → β) : hasA (touchA d m k f) k = true := by
  unfold touchA hasA
  rw [alookup_amodify_self, alookup_ensure_self]
  rfl

theorem hasA_touch_mono {β : Type} (d : β) (m : List (String × β)) {k k' : String}
    (f : β → β) (h : hasA m k' = true) : hasA (touchA d m k f) k' = true := by
  by_cases hk : k = k'
  · subst hk; exact hasA_touch_self d m k f
  · unfold touchA hasA
    rw [alookup_amodify_ne f hk, alookup_ensure_ne d m hk]
    exact h

theorem hasA_amodify {β : Type} (f : β → β) (m : List (String × β)) (k k' : String) :
    hasA (amodify m k f) k' = hasA m k' := by
  by_cases hk : k = k'
  · subst hk; simp [hasA, alookup_amodify_self]
  · simp [hasA, alookup_amodify_ne f hk]

theorem aget_amodify_ne {β : Type} (d : β) (f : β → β) {k k' : String}
    (m : List (String × β)) (hne : k ≠ k') :
    aget d (amodify m k f) k' = aget d m k' := by
  simp [aget, alookup_amodify_ne f hne]

theorem aget_amodify_self_of_has {β : Type} (d : β) (f : β → β)
    (m : List (String × β)) (k : String) (h : hasA m k = true) :
    aget d (amodify m k f) k = f (aget d m k) := by
  unfold hasA at h
  cases hv : alookup m k with
  | none => simp [hv] at h
  | some v => simp [aget, alookup_amodify_self, hv]

/-! Sum lemmas for the association-list helpers. -/

theorem asum_append {β M : Type} [AddCommMonoid M] (w : β → M)
    (m m' : List (String × β)) : asum w (m ++ m') = asum w m + asum w m' := by
  simp [asum]

theorem asum_ensure {β M : Type} [AddCommMonoid M] (w : β → M) (d : β)
    (hd : w d = 0) (m : List (String × β)) (k : String) :
    asum w (ensureA d m k) = asum w m := by
  unfold ensureA
  split
  · rfl
  · simp [asum_append, asum, hd]

theorem asum_amodify_add {β : Type} {M : Type} [AddCommMonoid M] (w : β → M)
    {f : β → β} {c : M} (hf : ∀ g, w (f g) = w g + c) (k : String) :
    ∀ m : List (String × β), hasA m k = true →
      asum w (amodify m k f) = asum w m + c := by
  intro m
  induction m with
  | nil => intro h; simp [hasA, alookup] at h
  | cons p rest ih =>
    intro h
    simp only [amodify]
    by_cases hp : p.1 = k
    · simp [asum, hp, hf, add_assoc, add_comm, add_left_comm]
    · have h' : hasA rest k = true := by
        simpa [hasA, alookup, hp] using h
      simp only [if_neg hp]
      simp [asum] at ih ⊢
      rw [ih h']
      abel

theorem asum_amodify_preserve {β : Type} {M : Type} [AddCommMonoid M] (w : β → M)
    {f : β → β} (hf : ∀ g, w (f g) = w g) (k : String) :
    ∀ m : List (String × β), asum w (amodify m k f) = asum w m := by
  intro m
  induction m with
  | nil => rfl
  | cons p rest ih =>
    simp only [amodify]
    by_cases hp : p.1 = k
    · simp [asum, hp, hf]
    · simp only [if_neg hp]
      simp [asum] at ih ⊢
      rw [ih]

theorem asum_touch_add {β : Type} {M : Type} [AddCommMonoid M] (w : β → M)
    (d : β) (hd : w d = 0) {f : β → β} {c : M} (hf : ∀ g, w (f g) = w g + c)
    (m : List (String × β)) (k : String) :
    asum w (touchA d m k f) = asum w m + c := by
  unfold touchA
  rw [asum_amodify_add w hf k _ (hasA_ensure_self d m k), asum_ensure w d hd]

/-! Lemmas about `modifyAt`. -/

theorem length_modifyAt {β : Type} (f : β → β) :
    ∀ (l : List β) (i : ℕ), (modifyAt l i f).length = l.length := by
  intro l
  induction l with
  | nil => intro i; rfl
  | cons x xs ih =>
    intro i
    cases i with
    | zero => simp [modifyAt]
    | succ n => simp [modifyAt, ih]

theorem sum_map_modifyAt {β : Type} {M : Type} [AddCommMonoid M] (w : β → M)
    {f : β → β} {c : M} (hf : ∀ x, w (f x) = w x + c) :
    ∀ (l : List β) (i : ℕ), i < l.length →
      ((modifyAt l i f).map w).sum = (l.map w).sum + c := by
  intro l
  induction l with
  | nil => intro i h; simp at h
  | cons x xs ih =>
    intro i h
    cases i with
    | zero => simp [modifyAt, hf, add_assoc, add_comm, add_left_comm]
    | succ n =>
      simp only [modifyAt, List.map_cons, List.sum_cons]
      rw [ih n (by simpa using h)]
      abel

/-! Characterisation of the daily reservation loop. -/

theorem applyRow_reservationCount (b ri : JVal) (a : DailyAcc) :
    (applyRow b ri a).reservationCount = a.reservationCount := rfl

theorem applyRow_nights (b ri : JVal) (a : DailyAcc) :
    (applyRow b ri a).nights = a.nights + 1 := rfl

theorem applyRow_revenue (b ri : JVal) (a : DailyAcc) :
    (applyRow b ri a).revenue = a.revenue + rowRent ri := rfl

theorem applyRow_sources (b ri : JVal) (a : DailyAcc) :
    (applyRow b ri a).sources =
      touchA zeroGroup a.sources (srcKey b) (addRowG (rowRent ri)) := rfl

theorem applyRow_nationalities (b ri : JVal) (a : DailyAcc) :
    (applyRow b ri a).nationalities =
      touchA zeroGroup a.nationalities (natKey b) (addRowG (rowRent ri)) := rfl

theorem addRowG_reservationCount (r : ℚ) (g : Group) :
    (addRowG r g).reservationCount = g.reservationCount := rfl

theorem addRowG_nights (r : ℚ) (g : Group) :
    (addRowG r g).nights = g.nights + 1 := rfl

theorem bumpResG_nights (g : Group) : (bumpResG g).nights = g.nights := rfl

theorem sumNightsG_touch (m : GroupMap) (k : String) (rent : ℚ) :
    sumNightsG (touchA zeroGroup m k (addRowG rent)) = sumNightsG m + 1 := by
  unfold sumNightsG
  exact asum_touch_add (fun g => g.nights) zeroGroup rfl
    (fun g => addRowG_nights rent g) m k

theorem sumNightsG_amodify_bump (m : GroupMap) (k : String) :
    sumNightsG (amodify m k bumpResG) = sumNightsG m := by
  unfold sumNightsG
  exact asum_amodify_preserve (fun g => g.nights) (fun g => bumpResG_nights g) k m

theorem rowStep_ok_cases (day : String) (b : JVal) (st : DailyAcc × Bool)
    (ri : JVal) {out : DailyAcc × Bool} (h : rowStep day b st ri = .ok out) :
    (rowMatches day ri = true ∧ out = (applyRow b ri st.1, true)) ∨
    (rowMatches day ri = false ∧ out = st) := by
  cases he : jsStrTrim (ri.get "EffectiveDate") with
  | error e =>
    have hr : rowStep day b st ri = .error e := by
      unfold rowStep; rw [he]
    rw [hr] at h
    simp at h
  | ok eff =>
    have hr : rowStep day b st ri =
        if eff = day then .ok (applyRow b ri st.1, true) else .ok st := by
      unfold rowStep; rw [he]
    rw [hr] at h
    have hm : rowMatches day ri = (eff == day) := by
      unfold rowMatches; rw [he]
    by_cases hd : eff = day
    · rw [if_pos hd] at h
      injection h with h'
      exact Or.inl ⟨by simp [hm, hd], h'.symm⟩
    · rw [if_neg hd] at h
      injection h with h'
      exact Or.inr ⟨by simp [hm, hd], h'.symm⟩

theorem rowFold_ok (day : String) (b : JVal) :
    ∀ (rows : List JVal) (st out : DailyAcc × Bool),
      rows.foldlM (rowStep day b) st = .ok out →
      out.1.reservationCount = st.1.reservationCount ∧
      out.2 = (st.2 || rows.any (rowMatches day)) ∧
      out.1.nights = st.1.nights + rows.countP (rowMatches day) ∧
      out.1.revenue = st.1.revenue + ((rows.filter (rowMatches day)).map rowRent).sum ∧
      (∀ k, (getG out.1.sources k).reservationCount =
            (getG st.1.sources k).reservationCount) ∧
      (∀ k, (getG out.1.nationalities k).reservationCount =
            (getG st.1.nationalities k).reservationCount) ∧
      (∀ k, hasA st.1.sources k = true → hasA out.1.sources k = true) ∧
      (∀ k, hasA st.1.nationalities k = true → hasA out.1.nationalities k = true) ∧
      (rows.any (rowMatches day) = true →
        hasA out.1.sources (srcKey b) = true ∧
        hasA out.1.nationalities (natKey b) = true) ∧
      sumNightsG out.1.sources = sumNightsG st.1.sources + rows.countP (rowMatches day) ∧
      sumNightsG out.1.nationalities =
        sumNightsG st.1.nationalities + rows.countP (rowMatches day) := by
  intro rows
  induction rows with
  | nil =>
    intro st out h
    have := foldlM_ok_nil h
    subst this
    simp
  | cons ri rows ih =>
    intro st out h
    obtain ⟨mid, h1, h2⟩ := foldlM_ok_cons h
    obtain ⟨hA, hB, hC, hD, hE, hF, hG, hH, hI, hJ, hK⟩ := ih mid out h2
    rcases rowStep_ok_cases day b st ri h1 with ⟨hm, hmid⟩ | ⟨hm, hmid⟩
    · subst hmid
      refine ⟨?_, ?_, ?_, ?_, ?_, ?_, ?_, ?_, ?_, ?_, ?_⟩
      · rw [hA, applyRow_reservationCount]
      · simp only [List.any_cons, hm, Bool.true_or, Bool.or_true]
        simpa [hm] using hB
      · rw [hC, applyRow_nights]
        simp [List.countP_cons, hm]
        omega
      · rw [hD, applyRow_revenue]
        simp only [List.filter_cons, hm, if_true, List.map_cons, List.sum_cons]
        ring
      · intro k
        rw [hE k, applyRow_sources]
        unfold getG
        by_cases hk : k = srcKey b
        · subst hk
          rw [aget_touch_self, addRowG_reservationCount]
        · rw [aget_touch_ne _ _ _ (fun hh => hk hh.symm)]
      · intro k
        rw [hF k, applyRow_nationalities]
        unfold getG
        by_cases hk : k = natKey b
        · subst hk
          rw [aget_touch_self, addRowG_reservationCount]
        · rw [aget_touch_ne _ _ _ (fun hh => hk hh.symm)]
      · intro k hk
        refine hG k ?_
        rw [applyRow_sources]
        exact hasA_touch_mono _ _ _ hk
      · intro k hk
        refine hH k ?_
        rw [applyRow_nationalities]
        exact hasA_touch_mono _ _ _ hk
      · intro _
        constructor
        · refine hG _ ?_
          rw [applyRow_sources]
          exact hasA_touch_self _ _ _ _
        · refine hH _ ?_
          rw [applyRow_nationalities]
          exact hasA_touch_self _ _ _ _
      · rw [hJ, applyRow_sources, sumNightsG_touch]
        simp [List.countP_cons, hm]
        omega
      · rw [hK, applyRow_nationalities, sumNightsG_touch]
        simp [List.countP_cons, hm]
        omega
    · subst hmid
      refine ⟨hA, ?_, ?_, ?_, hE, hF, hG, hH, ?_, ?_, ?_⟩
      · simpa [List.any_cons, hm] using hB
      · simpa [List.countP_cons, hm] using hC
      · simpa [List.filter_cons, hm] using hD
      · intro hany
        refine hI ?_
        simpa [List.any_cons, hm] using hany
      · simpa [List.countP_cons, hm] using hJ
      · simpa [List.countP_cons, hm] using hK

theorem bumpResT_ok {m : GroupMap} {k : String} {m' : GroupMap}
    (h : bumpResT m k = .ok m') :
    hasA m k = true ∧ m' = amodify m k bumpResG := by
  unfold bumpResT at h
  by_cases hk : hasA m k = true
  · rw [if_pos hk] at h
    injection h with h'
    exact ⟨hk, h'.symm⟩
  · rw [if_neg hk] at h
    simp at h

theorem getG_amodify_bump_rescount (m : GroupMap) (k : String)
    (hk : hasA m k = true) (k' : String) :
    (getG (amodify m k bumpResG) k').reservationCount =
      (getG m k').reservationCount + (if k' = k then 1 else 0) := by
  by_cases h : k' = k
  · subst h
    unfold getG
    rw [aget_amodify_self_of_has _ _ _ _ hk]
    simp [bumpResG]
  · unfold getG
    rw [aget_amodify_ne _ _ _ (fun hh => h hh.symm)]
    simp [h]

theorem tranStep_ok (day : String) (acc : DailyAcc) (b : JVal) {acc' : DailyAcc}
    (h : tranStep day acc b = .ok acc') :
    acc'.reservationCount =
      acc.reservationCount + (if hasDayRow day b then 1 else 0) ∧
    acc'.nights = acc.nights + matchCount day b ∧
    acc'.revenue = acc.revenue + rentSum day b ∧
    (∀ k, (getG acc'.sources k).reservationCount =
      (getG acc.sources k).reservationCount +
        (if hasDayRow day b ∧ k = srcKey b then 1 else 0)) ∧
    (∀ k, (getG acc'.nationalities k).reservationCount =
      (getG acc.nationalities k).reservationCount +
        (if hasDayRow day b ∧ k = natKey b then 1 else 0)) ∧
    (∀ k, hasA acc.sources k = true → hasA acc'.sources k = true) ∧
    (∀ k, hasA acc.nationalities k = true → hasA acc'.nationalities k = true) ∧
    sumNightsG acc'.sources = sumNightsG acc.sources + matchCount day b ∧
    sumNightsG acc'.nationalities =
      sumNightsG acc.nationalities + matchCount day b := by
  unfold tranStep at h
  split at h
  · exact absurd h (by simp)
  · rename_i a had heq
    obtain ⟨hA, hB, hC, hD, hE, hF, hG, hH, hI, hJ, hK⟩ :=
      rowFold_ok day b _ _ _ heq
    simp only at hA hC hD hE hF hG hH hJ hK
    have hhad : had = hasDayRow day b := by
      simpa [hasDayRow, tranRows] using hB
    have hmc : List.countP (rowMatches day) (asArray (b.get "RentalInfo")) =
        matchCount day b := rfl
    have hrs : (List.map rowRent
        (List.filter (rowMatches day) (asArray (b.get "RentalInfo")))).sum =
        rentSum day b := rfl
    cases had with
    | false =>
      simp only [Bool.false_eq_true, if_false] at h
      injection h with h'
      subst h'
      have hnone : hasDayRow day b = false := hhad.symm
      refine ⟨?_, ?_, ?_, ?_, ?_, hG, hH, ?_, ?_⟩
      · rw [hA, hnone]; simp
      · rw [hC, hmc]
      · rw [hD, hrs]
      · intro k; rw [hE k, hnone]; simp
      · intro k; rw [hF k, hnone]; simp
      · rw [hJ, hmc]
      · rw [hK, hmc]
    | true =>
      simp only [if_true] at h
      have hone : hasDayRow day b = true := hhad.symm
      obtain ⟨hsrcHas, hnatHas⟩ := hI (by simpa [hasDayRow, tranRows] using hone)
      split at h
      · exact absurd h (by simp)
      · rename_i s heqs
        split at h
        · exact absurd h (by simp)
        · rename_i n heqn
          obtain ⟨hsHas, hsEq⟩ := bumpResT_ok heqs
          obtain ⟨hnHas, hnEq⟩ := bumpResT_ok heqn
          injection h with h'
          subst h'
          refine ⟨?_, ?_, ?_, ?_, ?_, ?_, ?_, ?_, ?_⟩
          · simp only [hone, if_true]
            rw [hA]
          · rw [hC, hmc]
          · rw [hD, hrs]
          · intro k
            simp only [hsEq]
            rw [getG_amodify_bump_rescount _ _ hsHas k, hE k, hone]
            simp
          · intro k
            simp only [hnEq]
            rw [getG_amodify_bump_rescount _ _ hnHas k, hF k, hone]
            simp
          · intro k hk
            simp only [hsEq, hasA_amodify]
            exact hG k hk
          · intro k hk
            simp only [hnEq, hasA_amodify]
            exact hH k hk
          · simp only [hsEq, sumNightsG_amodify_bump]
            rw [hJ, hmc]
          · simp only [hnEq, sumNightsG_amodify_bump]
            rw [hK, hmc]

theorem tranFold_ok (day : String) :
    ∀ (ts : List JVal) (acc acc' : DailyAcc),
      ts.foldlM (tranStep day) acc = .ok acc' →
      acc'.reservationCount = acc.reservationCount + ts.countP (hasDayRow day) ∧
      acc'.nights = acc.nights + (ts.map (matchCount day)).sum ∧
      acc'.revenue = acc.revenue + (ts.map (rentSum day)).sum ∧
      (∀ k, (getG acc'.sources k).reservationCount =
        (getG acc.sources k).reservationCount +
          (ts.filter (fun b => srcKey b == k)).countP (hasDayRow day)) ∧
      (∀ k, (getG acc'.nationalities k).reservationCount =
        (getG acc.nationalities k).reservationCount +
          (ts.filter (fun b => natKey b == k)).countP (hasDayRow day)) ∧
      sumNightsG acc'.sources =
        sumNightsG acc.sources + (ts.map (matchCount day)).sum ∧
      sumNightsG acc'.nationalities =
        sumNightsG acc.nationalities + (ts.map (matchCount day)).sum := by
  intro ts
  induction ts with
  | nil =>
    intro acc acc' h
    have := foldlM_ok_nil h
    subst this
    simp
  | cons b ts ih =>
    intro acc acc' h
    obtain ⟨mid, h1, h2⟩ := foldlM_ok_cons h
    obtain ⟨mA, mB, mC, mD, mE, mF, mG, mH, mI⟩ := tranStep_ok day acc b h1
    obtain ⟨iA, iB, iC, iD, iE, iF, iG⟩ := ih mid acc' h2
    refine ⟨?_, ?_, ?_, ?_, ?_, ?_, ?_⟩
    · rw [iA, mA, List.countP_cons]
      by_cases hb : hasDayRow day b
      · simp [hb]; omega
      · simp [hb]
    · rw [iB, mB]
      simp [add_assoc, add_comm, add_left_comm]
    · rw [iC, mC]
      simp only [List.map_cons, List.sum_cons]
      ring
    · intro k
      rw [iD k, mD k, List.filter_cons]
      by_cases hk : srcKey b = k
      · simp only [hk, beq_self_eq_true, if_true, List.countP_cons]
        by_cases hb : hasDayRow day b
        · simp [hb, hk.symm]; omega
        · simp [hb]
      · have : (srcKey b == k) = false := by simp [hk]
        simp only [this, Bool.false_eq_true, if_false]
        have : ¬(hasDayRow day b = true ∧ k = srcKey b) := by
          rintro ⟨-, hkk⟩; exact hk hkk.symm
        simp [this]
    · intro k
      rw [iE k, mE k, List.filter_cons]
      by_cases hk : natKey b = k
      · simp only [hk, beq_self_eq_true, if_true, List.countP_cons]
        by_cases hb : hasDayRow day b
        · simp [hb, hk.symm]; omega
        · simp [hb]
      · have : (natKey b == k) = false := by simp [hk]
        simp only [this, Bool.false_eq_true, if_false]
        have : ¬(hasDayRow day b = true ∧ k = natKey b) := by
          rintro ⟨-, hkk⟩; exact hk hkk.symm
        simp [this]
    · rw [iF, mH]
      simp only [List.map_cons, List.sum_cons]
      omega
    · rw [iG, mI]
      simp only [List.map_cons, List.sum_cons]
      omega

/-- The outer reservation loop is the transaction loop over the
flattened transaction list. -/
theorem resFold_eq (day : String) :
    ∀ (rs : List JVal) (acc : DailyAcc),
      rs.foldlM (resStep day) acc =
        (rs.flatMap (fun r => asArray (r.get "BookingTran"))).foldlM
          (tranStep day) acc := by
  intro rs
  induction rs with
  | nil => intro acc; rfl
  | cons r rs ih =>
    intro acc
    rw [List.flatMap_cons, List.foldlM_append, List.foldlM_cons]
    show (asArray (r.get "BookingTran")).foldlM (tranStep day) acc >>=
        (fun mid => rs.foldlM (resStep day) mid) = _
    apply bind_congr
    intro mid
    exact ih mid

theorem cancelStep_ok (day : String) (n : ℕ) (c : JVal) {n' : ℕ}
    (h : cancelStep day n c = .ok n') :
    n' = n + (if cancelMatches day c then 1 else 0) := by
  cases he : JVal.orEmptyStr (c.get "Canceldatetime") with
  | error e =>
    have hr : cancelStep day n c = .error e := by
      unfold cancelStep; rw [he]
    rw [hr] at h
    simp at h
  | ok s =>
    have hr : cancelStep day n c =
        .ok (if firstField ' ' s = day then n + 1 else n) := by
      unfold cancelStep; rw [he]
    rw [hr] at h
    injection h with h'
    have hm : cancelMatches day c = (firstField ' ' s == day) := by
      unfold cancelMatches; rw [he]
    by_cases hd : firstField ' ' s = day
    · simp [hm, hd] at h' ⊢; omega
    · simp [hm, hd] at h' ⊢; omega

theorem cancelFold_ok (day : String) :
    ∀ (cs : List JVal) (n n' : ℕ),
      cs.foldlM (cancelStep day) n = .ok n' →
      n' = n + cs.countP (cancelMatches day) := by
  intro cs
  induction cs with
  | nil =>
    intro n n' h
    have := foldlM_ok_nil h
    simp [this.symm]
  | cons c cs ih =>
    intro n n' h
    obtain ⟨mid, h1, h2⟩ := foldlM_ok_cons h
    rw [ih mid n' h2, cancelStep_ok day n c h1, List.countP_cons]
    by_cases hc : cancelMatches day c
    · simp [hc]; omega
    · simp [hc]

/-- Destructor for a successful run of `computeDailyStats`: the two
folds succeeded and the result is assembled from them. -/
theorem computeDailyStats_ok (data : JVal) (day : String) {res : DailyStats}
    (h : computeDailyStats data day = .ok res) :
    ∃ acc cancels,
      (reservationsOf data).foldlM (resStep day) initAcc = .ok acc ∧
      (cancelsOf data).foldlM (cancelStep day) 0 = .ok cancels ∧
      res.all.Day = day ∧
      res.all.Reservations = acc.reservationCount ∧
      res.all.Revenue = acc.revenue ∧
      res.all.Nights = acc.nights ∧
      res.all.ADR = (if acc.nights = 0 then 0 else acc.revenue / (acc.nights : ℚ)) ∧
      res.all.Cancellations = cancels ∧
      res.sources = acc.sources.map (fun p => (p.1, finalizeG p.2)) ∧
      res.nationalities = acc.nationalities.map (fun p => (p.1, finalizeG p.2)) := by
  unfold computeDailyStats at h
  split at h
  · exact absurd h (by simp)
  · rename_i acc heq1
    split at h
    · exact absurd h (by simp)
    · rename_i cancels heq2
      injection h with h'
      subst h'
      exact ⟨acc, cancels, heq1, heq2, rfl, rfl, rfl, rfl, rfl, rfl, rfl, rfl⟩

theorem alookup_map_finalize (k : String) :
    ∀ m : GroupMap,
      alookup (m.map (fun p => (p.1, finalizeG p.2))) k =
        (alookup m k).map finalizeG := by
  intro m
  induction m with
  | nil => rfl
  | cons p rest ih =>
    simp only [List.map_cons, alookup]
    by_cases hp : p.1 = k
    · simp [hp]
    · simp [hp, ih]

theorem finalizeG_zero : finalizeG zeroGroup = zeroGroup := by
  simp [finalizeG, zeroGroup]

theorem getG_map_finalize (m : GroupMap) (k : String) :
    getG (m.map (fun p => (p.1, finalizeG p.2))) k = finalizeG (getG m k) := by
  unfold getG aget
  rw [alookup_map_finalize]
  cases alookup m k with
  | none => simp [finalizeG_zero]
  | some g => rfl

theorem sumNightsG_map_finalize (m : GroupMap) :
    sumNightsG (m.map (fun p => (p.1, finalizeG p.2))) = sumNightsG m := by
  unfold sumNightsG asum
  rw [List.map_map]
  rfl

theorem finalizeG_reservationCount (g : Group) :
    (finalizeG g).reservationCount = g.reservationCount := rfl

/-! Claim theorems about the daily aggregator. -/

/-- C1: for every raw payload and every day string, every run of the
daily aggregation that returns a result has `ADR = revenue / nights`
when `nights > 0` and `ADR = 0` when `nights = 0`, identically for the
overall totals and for every per-source and per-nationality group of
its output. -/
theorem computeDailyStats_ADR (data : JVal) (day : String) (res : DailyStats)
    (h : computeDailyStats data day = .ok res) :
    res.all.ADR =
      (if res.all.Nights = 0 then 0 else res.all.Revenue / (res.all.Nights : ℚ)) ∧
    (∀ k g, (k, g) ∈ res.sources →
      g.ADR = if g.nights = 0 then 0 else g.revenue / (g.nights : ℚ)) ∧
    (∀ k g, (k, g) ∈ res.nationalities →
      g.ADR = if g.nights = 0 then 0 else g.revenue / (g.nights : ℚ)) := by
  obtain ⟨acc, cancels, h1, h2, hDay, hRes, hRev, hNig, hADR, hCan, hSrc, hNat⟩ :=
    computeDailyStats_ok data day h
  refine ⟨by rw [hADR, hRev, hNig], ?_, ?_⟩
  · intro k g hmem
    rw [hSrc] at hmem
    obtain ⟨p, hp, heq⟩ := List.mem_map.mp hmem
    have hg : finalizeG p.2 = g := congrArg Prod.snd heq
    subst hg
    simp [finalizeG]
  · intro k g hmem
    rw [hNat] at hmem
    obtain ⟨p, hp, heq⟩ := List.mem_map.mp hmem
    have hg : finalizeG p.2 = g := congrArg Prod.snd heq
    subst hg
    simp [finalizeG]

/-- Witness for C1 on the worked example payload. -/
theorem computeDailyStats_ADR_witness :
    computeDailyStats examplePayload "2025-08-10" = .ok exampleDaily ∧
    exampleDaily.all.ADR =
      (if exampleDaily.all.Nights = 0 then 0
       else exampleDaily.all.Revenue / (exampleDaily.all.Nights : ℚ)) := by
  have h : computeDailyStats examplePayload "2025-08-10" = .ok exampleDaily := by
    rfl
  exact ⟨h, (computeDailyStats_ADR examplePayload "2025-08-10" exampleDaily h).1⟩

/-- C2: a booking transaction counts exactly once toward the
reservations count (overall and per group) iff at least one of its
rental-info rows is dated the target day, while revenue and nights
accumulate once per matching row. -/
theorem computeDailyStats_counting (data : JVal) (day : String)
    (res : DailyStats) (h : computeDailyStats data day = .ok res) :
    res.all.Reservations = (tranList data).countP (hasDayRow day) ∧
    res.all.Nights = ((tranList data).map (matchCount day)).sum ∧
    res.all.Revenue = ((tranList data).map (rentSum day)).sum ∧
    (∀ k, (getG res.sources k).reservationCount =
      ((tranList data).filter (fun b => srcKey b == k)).countP (hasDayRow day)) ∧
    (∀ k, (getG res.nationalities k).reservationCount =
      ((tranList data).filter (fun b => natKey b == k)).countP (hasDayRow day)) := by
  obtain ⟨acc, cancels, h1, h2, hDay, hRes, hRev, hNig, hADR, hCan, hSrc, hNat⟩ :=
    computeDailyStats_ok data day h
  rw [resFold_eq] at h1
  obtain ⟨tA, tB, tC, tD, tE, tF, tG⟩ := tranFold_ok day _ _ _ h1
  have htl : (reservationsOf data).flatMap (fun r => asArray (r.get "BookingTran")) =
      tranList data := rfl
  rw [htl] at tA tB tC tD tE
  refine ⟨?_, ?_, ?_, ?_, ?_⟩
  · rw [hRes, tA]; simp [initAcc]
  · rw [hNig, tB]; simp [initAcc]
  · rw [hRev, tC]
    simp [initAcc]
  · intro k
    rw [hSrc, getG_map_finalize, finalizeG_reservationCount, tD k]
    simp [initAcc, getG, aget, alookup, zeroGroup]
  · intro k
    rw [hNat, getG_map_finalize, finalizeG_reservationCount, tE k]
    simp [initAcc, getG, aget, alookup, zeroGroup]

/-- Witness for C2: the spec's worked example payload evaluated at
2025-08-10 gives reservations 1, revenue 150, nights 2, ADR 75, both
overall and under the source key "booking.com". -/
theorem computeDailyStats_counting_witness :
    computeDailyStats examplePayload "2025-08-10" = .ok exampleDaily ∧
    exampleDaily.all.Reservations = 1 ∧
    exampleDaily.all.Nights = 2 ∧
    exampleDaily.all.Revenue = 150 ∧
    exampleDaily.all.ADR = 75 ∧
    getG exampleDaily.sources "booking.com" = ⟨1, 150, 2, 75⟩ ∧
    (getG exampleDaily.sources "booking.com").reservationCount = 1 := by
  have h : computeDailyStats examplePayload "2025-08-10" = .ok exampleDaily := by
    rfl
  have hc := computeDailyStats_counting examplePayload "2025-08-10" exampleDaily h
  refine ⟨h, ?_, by decide, by decide, by decide, by decide, ?_⟩
  · rw [hc.1]; decide
  · rw [hc.2.2.2.1 "booking.com"]; decide

/-- C5: for every payload and day, the per-source groups' nights sum to
the overall nights, and likewise for the per-nationality groups. -/
theorem computeDailyStats_nights_partition (data : JVal) (day : String)
    (res : DailyStats) (h : computeDailyStats data day = .ok res) :
    sumNightsG res.sources = res.all.Nights ∧
    sumNightsG res.nationalities = res.all.Nights := by
  obtain ⟨acc, cancels, h1, h2, hDay, hRes, hRev, hNig, hADR, hCan, hSrc, hNat⟩ :=
    computeDailyStats_ok data day h
  rw [resFold_eq] at h1
  obtain ⟨tA, tB, tC, tD, tE, tF, tG⟩ := tranFold_ok day _ _ _ h1
  constructor
  · rw [hSrc, sumNightsG_map_finalize, tF, hNig, tB]
    rfl
  · rw [hNat, sumNightsG_map_finalize, tG, hNig, tB]
    rfl

/-- Witness for C5 on the worked example payload. -/
theorem computeDailyStats_nights_partition_witness :
    computeDailyStats examplePayload "2025-08-10" = .ok exampleDaily ∧
    sumNightsG exampleDaily.sources = exampleDaily.all.Nights := by
  have h : computeDailyStats examplePayload "2025-08-10" = .ok exampleDaily := by
    rfl
  exact ⟨h,
    (computeDailyStats_nights_partition examplePayload "2025-08-10" exampleDaily h).1⟩

/-- C7: the group key used by the daily aggregator is the trimmed,
lower-cased input string; a non-string, or a string that is empty after
trimming, maps to the single key "unknown". -/
theorem normKey_matches_spec (v : JVal) : normKey v = normKeySpec v := by
  cases v <;> simp [normKey, normKeySpec]

/-- C8: the daily cancellations count equals the number of cancellation
records whose cancellation date portion (before the first space) equals
the target day, and the record `Canceldatetime = "2025-08-10 14:00"`
counts exactly for the day "2025-08-10". -/
theorem computeDailyStats_cancellations (data : JVal) (day : String)
    (res : DailyStats) (h : computeDailyStats data day = .ok res) :
    res.all.Cancellations = (cancelsOf data).countP (cancelMatches day) ∧
    (∀ d : String,
      cancelMatches d (.obj [("Canceldatetime", .str "2025-08-10 14:00")]) = true ↔
        d = "2025-08-10") := by
  obtain ⟨acc, cancels, h1, h2, hDay, hRes, hRev, hNig, hADR, hCan, hSrc, hNat⟩ :=
    computeDailyStats_ok data day h
  constructor
  · rw [hCan, cancelFold_ok day _ _ _ h2]
    omega
  · intro d
    have hval : cancelMatches d (.obj [("Canceldatetime", .str "2025-08-10 14:00")]) =
        ("2025-08-10" == d) := rfl
    rw [hval]
    constructor
    · intro hb
      exact (beq_iff_eq.mp hb).symm
    · intro hd
      subst hd
      exact beq_iff_eq.mpr rfl

/-- Witness for C8: a payload with one cancellation record dated
2025-08-10 14:00 yields one cancellation for that day. -/
theorem computeDailyStats_cancellations_witness :
    (∃ res, computeDailyStats cancelPayload "2025-08-10" = .ok res ∧
      res.all.Cancellations = 1) ∧
    (cancelMatches "2025-08-10"
      (.obj [("Canceldatetime", .str "2025-08-10 14:00")]) = true) := by
  have h : computeDailyStats cancelPayload "2025-08-10" =
      .ok { all := { Day := "2025-08-10", Reservations := 0, Revenue := 0,
                     Nights := 0, ADR := 0, Cancellations := 1 },
            sources := [], nationalities := [] } := by rfl
  have hc := computeDailyStats_cancellations cancelPayload "2025-08-10" _ h
  refine ⟨⟨_, h, ?_⟩, (hc.2 "2025-08-10").mpr rfl⟩
  rw [hc.1]
  decide

/-! Lemmas about the decimal parser, needed to show that the monthly
day index is always an integer. -/

theorem digitVal_le (c : Char) {d : ℕ} (h : digitVal c = some d) : d ≤ 9 := by
  unfold digitVal at h
  split at h
  · injection h with h'
    omega
  · cases h

theorem length_dropWhile_le' {α : Type} (p : α → Bool) (l : List α) :
    (l.dropWhile p).length ≤ l.length := by
  induction l with
  | nil => simp
  | cons x xs ih =>
    rw [List.dropWhile_cons]
    split
    · simp only [List.length_cons]; omega
    · simp

theorem trimWS_length_le (cs : List Char) : (trimWS cs).length ≤ cs.length := by
  unfold trimWS
  calc ((cs.dropWhile isWS).reverse.dropWhile isWS).reverse.length
      = ((cs.dropWhile isWS).reverse.dropWhile isWS).length := by
        rw [List.length_reverse]
    _ ≤ (cs.dropWhile isWS).reverse.length := length_dropWhile_le' _ _
    _ = (cs.dropWhile isWS).length := by rw [List.length_reverse]
    _ ≤ cs.length := length_dropWhile_le' _ _

theorem parseUnsigned_nonneg (cs : List Char) {q : ℚ}
    (hp : parseUnsigned cs = some q) : 0 ≤ q := by
  unfold parseUnsigned at hp
  split at hp
  · cases hd : digitsVal (cs.takeWhile (fun c => c != '.')) with
    | none => rw [hd] at hp; simp at hp
    | some n =>
      rw [hd] at hp
      simp only [Option.map] at hp
      injection hp with hp'
      rw [← hp']
      positivity
  · split at hp
    · cases hp
    · split at hp
      · cases hp
      · split at hp
        · injection hp with hp'
          rw [← hp']
          positivity
        · cases hp

theorem parseUnsigned_den_of_le_two (cs : List Char) (h2 : cs.length ≤ 2) {q : ℚ}
    (hp : parseUnsigned cs = some q) (h1 : 1 ≤ q) : q.den = 1 := by
  unfold parseUnsigned at hp
  split at hp
  · cases hd : digitsVal (cs.takeWhile (fun c => c != '.')) with
    | none => rw [hd] at hp; simp at hp
    | some n =>
      rw [hd] at hp
      simp only [Option.map] at hp
      injection hp with hp'
      rw [← hp']
      exact Rat.den_natCast n
  · rename_i dot f heq
    have hlen : (cs.takeWhile (fun c => c != '.')).length + (f.length + 1) =
        cs.length := by
      have := congrArg List.length
        (List.takeWhile_append_dropWhile (p := fun c => c != '.') (l := cs))
      rw [heq] at this
      simpa using this
    split at hp
    · cases hp
    · split at hp
      · cases hp
      · rename_i hne
        split at hp
        · rename_i ni nf hni hnf
          injection hp with hp'
          by_cases hf : f = []
          · subst hf
            simp only [if_pos rfl] at hnf
            injection hnf with hnf'
            rw [← hp', ← hnf']
            norm_num
          · have hflen : f.length = 1 := by
              have : 1 ≤ f.length := by
                cases f with
                | nil => exact absurd rfl hf
                | cons a l => simp
              omega
            have hi : cs.takeWhile (fun c => c != '.') = [] := by
              have : (cs.takeWhile (fun c => c != '.')).length = 0 := by omega
              exact List.length_eq_zero.mp this
            rw [if_pos hi] at hni
            injection hni with hni'
            obtain ⟨c, hc⟩ := List.length_eq_one.mp hflen
            have hnf9 : nf ≤ 9 := by
              rw [hc] at hnf
              have : f ≠ [] := hf
              rw [if_neg (by simp [hc])] at hnf
              exact digitVal_le c (by simpa [digitsVal] using hnf)
            exfalso
            have hq1 : q < 1 := by
              rw [← hp', ← hni', hflen]
              have : (nf : ℚ) / (10 : ℚ) ^ 1 < 1 := by
                rw [pow_one, div_lt_one (by norm_num)]
                exact_mod_cast (by omega : nf < 10)
              push_cast
              linarith
            linarith
        · cases hp

theorem parseNumber_den_of_le_two (cs : List Char) (h2 : cs.length ≤ 2) {q : ℚ}
    (hp : parseNumber cs = some q) (h1 : 1 ≤ q) : q.den = 1 := by
  unfold parseNumber at hp
  split at hp
  · injection hp with hp'
    rw [← hp'] at h1
    norm_num at h1
  · rename_i c rest heq
    have hlen : rest.length + 1 ≤ 2 := by
      have := trimWS_length_le cs
      rw [heq] at this
      simp only [List.length_cons] at this
      omega
    split at hp
    · obtain ⟨q', hq', hqq⟩ := Option.map_eq_some'.mp hp
      have := parseUnsigned_nonneg rest hq'
      exfalso
      rw [← hqq] at h1
      linarith
    · split at hp
      · exact parseUnsigned_den_of_le_two rest (by omega) hp h1
      · exact parseUnsigned_den_of_le_two (c :: rest) (by simpa using hlen) hp h1

/-! Characterisation of the monthly calendar. -/

theorem foldl_add_sum {α M : Type} [AddCommMonoid M] (w : α → M) :
    ∀ (l : List α) (init : M),
      l.foldl (fun s x => s + w x) init = init + (l.map w).sum := by
  intro l
  induction l with
  | nil => intro init; simp
  | cons x xs ih =>
    intro init
    simp only [List.foldl_cons, List.map_cons, List.sum_cons, ih]
    rw [add_assoc]

theorem sumDayNights_init (dim : ℕ) : sumDayNights (initByDay dim) = 0 := by
  unfold sumDayNights initByDay
  rw [List.map_map]
  apply List.sum_eq_zero
  intro x hx
  obtain ⟨i, hi, hxi⟩ := List.mem_map.mp hx
  simpa using hxi.symm

theorem sumRoomNights_ensure (rooms : RoomMap) (k : String) (c n : JVal)
    (dim : ℕ) :
    sumRoomNights (ensureA (newRoom c n dim) rooms k) = sumRoomNights rooms := by
  unfold sumRoomNights
  exact asum_ensure (fun rc => rc.totals.nights) (newRoom c n dim) rfl rooms k

theorem sumRoomNights_mark (rooms : RoomMap) (k : String) (i : ℕ) (rent : ℚ)
    (hk : hasA rooms k = true) :
    sumRoomNights (markRoom rooms k i rent) = sumRoomNights rooms + 1 := by
  unfold sumRoomNights markRoom
  refine asum_amodify_add (fun rc => rc.totals.nights) ?_ k rooms hk
  intro g
  rfl

theorem sumDayNights_bump (l : List DayTotal) (i : ℕ) (rent : ℚ)
    (hi : i < l.length) :
    sumDayNights (bumpDay l i rent) = sumDayNights l + 1 := by
  unfold sumDayNights bumpDay
  refine sum_map_modifyAt (fun dt => dt.nights) ?_ l i hi
  intro x
  rfl

theorem length_bumpDay (l : List DayTotal) (i : ℕ) (rent : ℚ) :
    (bumpDay l i rent).length = l.length := by
  unfold bumpDay
  exact length_modifyAt _ _ _

theorem monthlyRowStep_inv (month : String) (dim : ℕ) (b ri : JVal)
    (st st' : RoomMap × List DayTotal)
    (h : monthlyRowStep month dim b st ri = .ok st')
    (hI : MonthlyInv dim st) : MonthlyInv dim st' := by
  obtain ⟨hsum, hlen⟩ := hI
  unfold monthlyRowStep at h
  split at h
  · cases h
  · rename_i eff heff
    split at h
    · injection h with h'
      subst h'
      exact ⟨hsum, hlen⟩
    · split at h
      · injection h with h'
        subst h'
        refine ⟨?_, hlen⟩
        rw [sumRoomNights_ensure, hsum]
      · rename_i d hd
        split at h
        · injection h with h'
          subst h'
          refine ⟨?_, hlen⟩
          rw [sumRoomNights_ensure, hsum]
        · rename_i hrange
          split at h
          · rename_i hden
            injection h with h'
            subst h'
            push_neg at hrange
            obtain ⟨hge1, hled⟩ := hrange
            have hnum : (d.num : ℚ) = d := Rat.coe_int_num_of_den_eq_one hden
            have h1n : 1 ≤ d.num := by
              have h1q : (1 : ℚ) ≤ (d.num : ℚ) := by rw [hnum]; exact hge1
              exact_mod_cast h1q
            have h2n : d.num ≤ (dim : ℤ) := by
              have h2q : (d.num : ℚ) ≤ (dim : ℚ) := by rw [hnum]; exact hled
              exact_mod_cast h2q
            refine ⟨?_, ?_⟩
            · rw [sumRoomNights_mark _ _ _ _ (hasA_ensure_self _ _ _),
                sumRoomNights_ensure, hsum,
                sumDayNights_bump _ _ _ (by rw [hlen]; omega)]
            · rw [length_bumpDay, hlen]
          · cases h

theorem monthlyTranStep_inv (month : String) (dim : ℕ) (b : JVal)
    (st st' : RoomMap × List DayTotal)
    (h : monthlyTranStep month dim st b = .ok st')
    (hI : MonthlyInv dim st) : MonthlyInv dim st' := by
  unfold monthlyTranStep at h
  exact foldlM_inv (MonthlyInv dim)
    (fun a x a' hs ha => monthlyRowStep_inv month dim b x a a' hs ha) _ _ _ h hI

theorem monthlyResStep_inv (month : String) (dim : ℕ) (r : JVal)
    (st st' : RoomMap × List DayTotal)
    (h : monthlyResStep month dim st r = .ok st')
    (hI : MonthlyInv dim st) : MonthlyInv dim st' := by
  unfold monthlyResStep at h
  exact foldlM_inv (MonthlyInv dim)
    (fun a x a' hs ha => monthlyTranStep_inv month dim x a a' hs ha) _ _ _ h hI

/-- Destructor for a successful run of `computeMonthlyCalendar`. -/
theorem computeMonthlyCalendar_ok (data : JVal) (Y M : ℕ) {res : MonthlyResult}
    (h : computeMonthlyCalendar data Y M = .ok res) :
    ∃ st, (reservationsOf data).foldlM
        (monthlyResStep (monthStr Y M) (daysInMonth Y M))
        ([], initByDay (daysInMonth Y M)) = .ok st ∧
      res.summary.month = monthStr Y M ∧
      res.summary.daysInMonth = daysInMonth Y M ∧
      res.summary.totalRooms = st.1.length ∧
      res.summary.totalNights = st.2.foldl (fun s d => s + d.nights) 0 ∧
      res.summary.totalRevenue = st.2.foldl (fun s d => s + d.revenue) 0 ∧
      res.rooms = st.1 ∧
      res.totalsByDay = st.2 := by
  simp only [computeMonthlyCalendar] at h
  split at h
  · exact absurd h (by simp)
  · rename_i st heq
    injection h with h'
    subst h'
    exact ⟨st, heq, rfl, rfl, rfl, rfl, rfl, rfl, rfl⟩

/-- C6: for every payload and month, the monthly summary's totalNights
equals the sum of nights over totalsByDay and also the sum over all
room entries of their totals.nights. -/
theorem computeMonthlyCalendar_night_sums (data : JVal) (Y M : ℕ)
    (res : MonthlyResult) (h : computeMonthlyCalendar data Y M = .ok res) :
    res.summary.totalNights = (res.totalsByDay.map (fun d => d.nights)).sum ∧
    res.summary.totalNights = (res.rooms.map (fun p => p.2.totals.nights)).sum := by
  obtain ⟨st, hfold, hM, hD, hR, hN, hRev, hRooms, hDays⟩ :=
    computeMonthlyCalendar_ok data Y M h
  have hInv : MonthlyInv (daysInMonth Y M) st := by
    refine foldlM_inv (MonthlyInv (daysInMonth Y M))
      (fun a x a' hs ha =>
        monthlyResStep_inv (monthStr Y M) (daysInMonth Y M) x a a' hs ha)
      _ _ _ hfold ⟨by rw [show sumDayNights ([], initByDay (daysInMonth Y M)).2 = 0 from sumDayNights_init _]; rfl, by simp [initByDay]⟩
  obtain ⟨hsum, hlen⟩ := hInv
  have hfoldl : st.2.foldl (fun s d => s + d.nights) 0 =
      (st.2.map (fun d => d.nights)).sum := by
    rw [foldl_add_sum (fun d => d.nights) st.2 0, zero_add]
  constructor
  · rw [hN, hDays, hfoldl]
  · rw [hN, hRooms, hfoldl,
      show (st.2.map (fun d => d.nights)).sum = sumDayNights st.2 from rfl, ← hsum]
    rfl

/-- Witness for C6: the empty payload over February 2025. -/
theorem computeMonthlyCalendar_night_sums_witness :
    computeMonthlyCalendar JVal.null 2025 2 =
      .ok { summary := { month := monthStr 2025 2, daysInMonth := 28,
                         totalRooms := 0, totalNights := 0, totalRevenue := 0 },
            rooms := [], totalsByDay := initByDay 28 } ∧
    (0 : ℕ) = ((initByDay 28).map (fun d => d.nights)).sum := by
  have h : computeMonthlyCalendar JVal.null 2025 2 =
      .ok { summary := { month := monthStr 2025 2, daysInMonth := 28,
                         totalRooms := 0, totalNights := 0, totalRevenue := 0 },
            rooms := [], totalsByDay := initByDay 28 } := by rfl
  exact ⟨h, (computeMonthlyCalendar_night_sums JVal.null 2025 2 _ h).1⟩

/-- C10: a rental-info row whose effective date matches the month
prefix creates the room-type calendar entry before the day-of-month
range check; a row whose day component is outside the month therefore
still adds a room entry with zero totals and all days unbooked, and the
entry counts toward totalRooms while the row contributes no nights or
revenue. -/
theorem computeMonthlyCalendar_stray_day :
    (∀ (month : String) (dim : ℕ) (b : JVal) (st : RoomMap × List DayTotal)
      (ri : JVal) (eff : String),
      jsStrTrim (ri.get "EffectiveDate") = .ok eff →
      jsStartsWith eff (month ++ "-") = true →
      (∀ d, parseNumber ((eff.data.drop 8).take 2) = some d →
        d < 1 ∨ (dim : ℚ) < d) →
      monthlyRowStep month dim b st ri =
        .ok (ensureA (newRoom (roomCodeV b ri) (roomNameV b ri) dim) st.1
              (propKey (roomCodeV b ri)), st.2)) ∧
    computeMonthlyCalendar strayDayPayload 2025 8 = .ok strayDayResult ∧
    strayDayResult.summary.totalRooms = 1 ∧
    strayDayResult.summary.totalNights = 0 ∧
    strayDayResult.summary.totalRevenue = 0 ∧
    strayDayResult.rooms.map Prod.fst = ["A"] ∧
    strayDayResult.rooms.map (fun p => p.2.totals) = [⟨0, 0⟩] ∧
    strayDayResult.rooms.map (fun p => p.2.days.all (fun c => !c.booked)) =
      [true] := by
  refine ⟨?_, by rfl, by decide, by decide, by decide, by decide, by decide,
    by decide⟩
  intro month dim b st ri eff heff hstart hout
  unfold monthlyRowStep
  rw [heff]
  dsimp only
  rw [hstart]
  simp only [Bool.not_true, Bool.false_eq_true, if_false]
  cases hp : parseNumber ((eff.data.drop 8).take 2) with
  | none => rfl
  | some d =>
    have hv := hout d hp
    dsimp only
    rw [if_pos hv]

/-- Witness for C10: the stray row of `strayDayPayload` exercises the
general branch: its effective date matches the 2025-08 prefix, its day
component 99 is out of range, and the step creates the room entry while
leaving the per-day totals untouched. -/
theorem computeMonthlyCalendar_stray_day_witness :
    jsStrTrim (strayRow.get "EffectiveDate") = .ok "2025-08-99" ∧
    jsStartsWith "2025-08-99" (monthStr 2025 8 ++ "-") = true ∧
    monthlyRowStep (monthStr 2025 8) 31 strayTran ([], initByDay 31) strayRow =
      .ok (ensureA (newRoom (roomCodeV strayTran strayRow)
            (roomNameV strayTran strayRow) 31) []
            (propKey (roomCodeV strayTran strayRow)), initByDay 31) := by
  refine ⟨by rfl, by rfl, ?_⟩
  refine computeMonthlyCalendar_stray_day.1 (monthStr 2025 8) 31 strayTran
    ([], initByDay 31) strayRow "2025-08-99" (by rfl) (by rfl) ?_
  intro d hd
  have h99 : parseNumber ((("2025-08-99" : String).data.drop 8).take 2) =
      some 99 := by rfl
  rw [h99] at hd
  injection hd with hd'
  subst hd'
  right
  norm_num

/-- Counterexample to C9: on a payload whose rental-info row carries a
numeric (truthy non-string) effective date, both aggregators throw a
TypeError (the `(v || "").trim()` idiom calls a string method on a
number) instead of returning a result. -/
theorem aggregators_throw_on_bad_date :
    computeDailyStats badDatePayload "2025-08-10" = .error () ∧
    computeMonthlyCalendar badDatePayload 2025 8 = .error () := by
  exact ⟨by rfl, by rfl⟩

/-! Totality of the aggregators on payloads whose date-like fields are
strings or falsy. -/

theorem orEmptyStr_ok_of_safe {v : JVal} (h : strSafe v = true) :
    ∃ s, JVal.orEmptyStr v = .ok s := by
  cases v with
  | str s => exact ⟨s, rfl⟩
  | jsUndefined => exact ⟨"", rfl⟩
  | null => exact ⟨"", rfl⟩
  | bool b =>
    cases b with
    | false => exact ⟨"", rfl⟩
    | true => simp [strSafe, JVal.truthy] at h
  | num q =>
    refine ⟨"", ?_⟩
    have ht : JVal.truthy (.num q) = false := by simpa [strSafe] using h
    simp [JVal.orEmptyStr, ht]
  | arr xs => simp [strSafe, JVal.truthy] at h
  | obj fs => simp [strSafe, JVal.truthy] at h

theorem jsStrTrim_ok_of_safe {v : JVal} (h : strSafe v = true) :
    ∃ s, jsStrTrim v = .ok s := by
  obtain ⟨s, hs⟩ := orEmptyStr_ok_of_safe h
  exact ⟨jsTrim s, by unfold jsStrTrim; rw [hs]; rfl⟩

theorem rowStep_ok_of_safe (day : String) (b : JVal) (st : DailyAcc × Bool)
    (ri : JVal) (h : strSafe (ri.get "EffectiveDate") = true) :
    ∃ out, rowStep day b st ri = .ok out := by
  obtain ⟨s, hs⟩ := jsStrTrim_ok_of_safe h
  unfold rowStep
  rw [hs]
  dsimp only
  split
  · exact ⟨_, rfl⟩
  · exact ⟨_, rfl⟩

theorem rowFold_ok_of_safe (day : String) (b : JVal) :
    ∀ (rows : List JVal) (st : DailyAcc × Bool),
      (rows.all fun ri => strSafe (ri.get "EffectiveDate")) = true →
      ∃ out, rows.foldlM (rowStep day b) st = .ok out := by
  intro rows
  induction rows with
  | nil => intro st _; exact ⟨st, rfl⟩
  | cons ri rows ih =>
    intro st hall
    simp only [List.all_cons, Bool.and_eq_true] at hall
    obtain ⟨mid, hmid⟩ := rowStep_ok_of_safe day b st ri hall.1
    obtain ⟨out, hout⟩ := ih mid hall.2
    refine ⟨out, ?_⟩
    rw [List.foldlM_cons, hmid]
    simpa [Bind.bind, Except.bind] using hout

theorem tranStep_ok_of_safe (day : String) (acc : DailyAcc) (b : JVal)
    (h : ((tranRows b).all fun ri => strSafe (ri.get "EffectiveDate")) = true) :
    ∃ acc', tranStep day acc b = .ok acc' := by
  obtain ⟨out, hout⟩ := rowFold_ok_of_safe day b (tranRows b) (acc, false) h
  obtain ⟨a, had⟩ := out
  obtain ⟨_, hB, _, _, _, _, _, _, hI, _, _⟩ := rowFold_ok day b _ _ _ hout
  unfold tranStep
  rw [show asArray (b.get "RentalInfo") = tranRows b from rfl, hout]
  dsimp only
  cases had with
  | false => exact ⟨a, rfl⟩
  | true =>
    have hany : (tranRows b).any (rowMatches day) = true := by
      simpa using hB.symm
    obtain ⟨hsrc, hnat⟩ := hI hany
    have hbs : bumpResT a.sources (srcKey b) =
        .ok (amodify a.sources (srcKey b) bumpResG) := by
      unfold bumpResT; rw [if_pos hsrc]
    have hbn : bumpResT a.nationalities (natKey b) =
        .ok (amodify a.nationalities (natKey b) bumpResG) := by
      unfold bumpResT; rw [if_pos hnat]
    rw [if_pos rfl, hbs]
    dsimp only
    rw [hbn]
    exact ⟨_, rfl⟩

theorem tranFold_ok_of_safe (day : String) :
    ∀ (ts : List JVal) (acc : DailyAcc),
      (ts.all fun b =>
        (tranRows b).all fun ri => strSafe (ri.get "EffectiveDate")) = true →
      ∃ acc', ts.foldlM (tranStep day) acc = .ok acc' := by
  intro ts
  induction ts with
  | nil => intro acc _; exact ⟨acc, rfl⟩
  | cons b ts ih =>
    intro acc hall
    simp only [List.all_cons, Bool.and_eq_true] at hall
    obtain ⟨mid, hmid⟩ := tranStep_ok_of_safe day acc b hall.1
    obtain ⟨out, hout⟩ := ih mid hall.2
    refine ⟨out, ?_⟩
    rw [List.foldlM_cons, hmid]
    simpa [Bind.bind, Except.bind] using hout

theorem cancelStep_ok_of_safe (day : String) (n : ℕ) (c : JVal)
    (h : strSafe (c.get "Canceldatetime") = true) :
    ∃ n', cancelStep day n c = .ok n' := by
  obtain ⟨s, hs⟩ := orEmptyStr_ok_of_safe h
  unfold cancelStep
  rw [hs]
  exact ⟨_, rfl⟩

theorem cancelFold_ok_of_safe (day : String) :
    ∀ (cs : List JVal) (n : ℕ),
      (cs.all fun c => strSafe (c.get "Canceldatetime")) = true →
      ∃ n', cs.foldlM (cancelStep day) n = .ok n' := by
  intro cs
  induction cs with
  | nil => intro n _; exact ⟨n, rfl⟩
  | cons c cs ih =>
    intro n hall
    simp only [List.all_cons, Bool.and_eq_true] at hall
    obtain ⟨mid, hmid⟩ := cancelStep_ok_of_safe day n c hall.1
    obtain ⟨out, hout⟩ := ih mid hall.2
    refine ⟨out, ?_⟩
    rw [List.foldlM_cons, hmid]
    simpa [Bind.bind, Except.bind] using hout

theorem computeDailyStats_total_of_safe (data : JVal) (day : String)
    (h : dailySafe data = true) :
    ∃ res, computeDailyStats data day = .ok res := by
  unfold dailySafe at h
  rw [Bool.and_eq_true] at h
  obtain ⟨h1, h2⟩ := h
  obtain ⟨acc, hacc⟩ := tranFold_ok_of_safe day (tranList data) initAcc h1
  have hres : (reservationsOf data).foldlM (resStep day) initAcc = .ok acc := by
    rw [resFold_eq]
    exact hacc
  obtain ⟨cnt, hcnt⟩ := cancelFold_ok_of_safe day (cancelsOf data) 0 h2
  cases hcd : computeDailyStats data day with
  | ok res => exact ⟨res, rfl⟩
  | error e =>
    exfalso
    unfold computeDailyStats at hcd
    split at hcd
    · rename_i e' heq
      rw [hres] at heq
      exact absurd heq (by simp)
    · rename_i acc' heq
      split at hcd
      · rename_i e' heq2
        rw [hcnt] at heq2
        exact absurd heq2 (by simp)
      · exact absurd hcd (by simp)

theorem monthlyRowStep_ok_of_safe (month : String) (dim : ℕ) (b : JVal)
    (st : RoomMap × List DayTotal) (ri : JVal)
    (h : strSafe (ri.get "EffectiveDate") = true) :
    ∃ st', monthlyRowStep month dim b st ri = .ok st' := by
  obtain ⟨s, hs⟩ := jsStrTrim_ok_of_safe h
  unfold monthlyRowStep
  rw [hs]
  dsimp only
  split
  · exact ⟨st, rfl⟩
  · split
    · exact ⟨_, rfl⟩
    · rename_i d hd
      split
      · exact ⟨_, rfl⟩
      · rename_i hrange
        have hden : d.den = 1 := by
          push_neg at hrange
          exact parseNumber_den_of_le_two _ (List.length_take_le _ _) hd hrange.1
        rw [if_pos hden]
        exact ⟨_, rfl⟩

theorem monthlyTranFold_ok_of_safe (month : String) (dim : ℕ) (b : JVal) :
    ∀ (rows : List JVal) (st : RoomMap × List DayTotal),
      (rows.all fun ri => strSafe (ri.get "EffectiveDate")) = true →
      ∃ st', rows.foldlM (monthlyRowStep month dim b) st = .ok st' := by
  intro rows
  induction rows with
  | nil => intro st _; exact ⟨st, rfl⟩
  | cons ri rows ih =>
    intro st hall
    simp only [List.all_cons, Bool.and_eq_true] at hall
    obtain ⟨mid, hmid⟩ := monthlyRowStep_ok_of_safe month dim b st ri hall.1
    obtain ⟨out, hout⟩ := ih mid hall.2
    refine ⟨out, ?_⟩
    rw [List.foldlM_cons, hmid]
    simpa [Bind.bind, Except.bind] using hout

theorem monthlyResFold_eq (month : String) (dim : ℕ) :
    ∀ (rs : List JVal) (st : RoomMap × List DayTotal),
      rs.foldlM (monthlyResStep month dim) st =
        (rs.flatMap (fun r => asArray (r.get "BookingTran"))).foldlM
          (monthlyTranStep month dim) st := by
  intro rs
  induction rs with
  | nil => intro st; rfl
  | cons r rs ih =>
    intro st
    rw [List.flatMap_cons, List.foldlM_append, List.foldlM_cons]
    show (asArray (r.get "BookingTran")).foldlM (monthlyTranStep month dim) st >>=
        (fun mid => rs.foldlM (monthlyResStep month dim) mid) = _
    apply bind_congr
    intro mid
    exact ih mid

theorem monthlyTranFoldList_ok_of_safe (month : String) (dim : ℕ) :
    ∀ (ts : List JVal) (st : RoomMap × List DayTotal),
      (ts.all fun b =>
        (tranRows b).all fun ri => strSafe (ri.get "EffectiveDate")) = true →
      ∃ st', ts.foldlM (monthlyTranStep month dim) st = .ok st' := by
  intro ts
  induction ts with
  | nil => intro st _; exact ⟨st, rfl⟩
  | cons b ts ih =>
    intro st hall
    simp only [List.all_cons, Bool.and_eq_true] at hall
    obtain ⟨mid, hmid⟩ := monthlyTranFold_ok_of_safe month dim b (tranRows b) st hall.1
    obtain ⟨out, hout⟩ := ih mid hall.2
    refine ⟨out, ?_⟩
    rw [List.foldlM_cons]
    rw [show monthlyTranStep month dim st b =
      (tranRows b).foldlM (monthlyRowStep month dim b) st from rfl, hmid]
    simpa [Bind.bind, Except.bind] using hout

theorem computeMonthlyCalendar_total_of_safe (data : JVal) (Y M : ℕ)
    (h : monthlySafe data = true) :
    ∃ res, computeMonthlyCalendar data Y M = .ok res := by
  unfold monthlySafe at h
  obtain ⟨st, hst⟩ := monthlyTranFoldList_ok_of_safe (monthStr Y M)
    (daysInMonth Y M) (tranList data) ([], initByDay (daysInMonth Y M)) h
  have hres : (reservationsOf data).foldlM
      (monthlyResStep (monthStr Y M) (daysInMonth Y M))
      ([], initByDay (daysInMonth Y M)) = .ok st := by
    rw [monthlyResFold_eq]
    exact hst
  cases hcm : computeMonthlyCalendar data Y M with
  | ok res => exact ⟨res, rfl⟩
  | error e =>
    exfalso
    simp only [computeMonthlyCalendar] at hcm
    split at hcm
    · rename_i e' heq
      rw [hres] at heq
      exact absurd heq (by simp)
    · exact absurd hcm (by simp)

/-- C9 amended: the aggregators return a result for every payload in
which every truthy `EffectiveDate` and `Canceldatetime` value is a
string (missing, null and non-array structures are defaulted away);
a truthy non-string date field makes them throw. -/
theorem aggregators_total_on_safe_payloads (data : JVal) (day : String)
    (Y M : ℕ) (h1 : dailySafe data = true) (h2 : monthlySafe data = true) :
    (∃ res, computeDailyStats data day = .ok res) ∧
    (∃ res, computeMonthlyCalendar data Y M = .ok res) :=
  ⟨computeDailyStats_total_of_safe data day h1,
   computeMonthlyCalendar_total_of_safe data Y M h2⟩

/-- Witness for the amended C9 on the worked example payload. -/
theorem aggregators_total_on_safe_payloads_witness :
    dailySafe examplePayload = true ∧ monthlySafe examplePayload = true ∧
    (∃ res, computeDailyStats examplePayload "2025-08-10" = .ok res) ∧
    (∃ res, computeMonthlyCalendar examplePayload 2025 8 = .ok res) := by
  have h1 : dailySafe examplePayload = true := by rfl
  have h2 : monthlySafe examplePayload = true := by rfl
  have hb := aggregators_total_on_safe_payloads examplePayload "2025-08-10"
    2025 8 h1 h2
  exact ⟨h1, h2, hb.1, hb.2⟩

/-! The cache policy of `fetchData`. -/

theorem doUpstream_called (up : Upstream) :
    (doUpstream up).upstreamCalled = true := by
  cases up <;> rfl

/-- Counterexample to C3: a parsed cache record with `timestamp = 0` is
present and fresh in the claim's sense (now - timestamp < timeout), yet
the code treats it as a miss (the falsy timestamp fails the
`cacheObj.timestamp &&` guard) and calls upstream; moreover with
`timeout = 0` a record whose timestamp lies in the future is still
served from cache rather than refetched. -/
theorem fetchData_c3_counterexample :
    ((5 : ℤ) - 0 < 10) ∧
    (fetchData (.parsed (.obj [("timestamp", .num 0), ("data", .str "d")]))
      5 10 (.success (.str "u"))).upstreamCalled = true ∧
    (fetchData (.parsed (.obj [("timestamp", .num 0), ("data", .str "d")]))
      5 10 (.success (.str "u"))).result = .ok (.str "u") ∧
    (fetchData (.parsed (.obj [("timestamp", .num 6), ("data", .str "d")]))
      5 0 (.success (.str "u"))).upstreamCalled = false := by
  refine ⟨by norm_num, by rfl, by rfl, by rfl⟩

/-- C3 amended: `fetchData` returns the cached payload without calling
upstream iff the cache file parsed to a record whose `timestamp` field
is truthy and numerically satisfies `now - ts < timeout`; a missing,
empty or corrupt cache file always falls through to the upstream call;
and with `timeout = 0` every record whose numeric timestamp is at most
`now` is refetched (only a timestamp strictly in the future, or a
nonzero timeout, can produce a hit). -/
theorem fetchData_cache_policy (cache : CacheState) (now timeout : ℤ)
    (up : Upstream) :
    ((fetchData cache now timeout up).upstreamCalled = false ↔
      cacheHit cache now timeout = true) ∧
    (∀ v, cache = .parsed v →
      (cacheHit cache now timeout = true ↔
        (v.get "timestamp").truthy = true ∧
        ∃ q, jsNumber (v.get "timestamp") = some q ∧
          (now : ℚ) - q < (timeout : ℚ))) ∧
    ((cache = .missing ∨ cache = .empty ∨ cache = .corrupt) →
      (fetchData cache now timeout up).upstreamCalled = true) ∧
    (∀ v, cache = .parsed v → cacheHit cache now timeout = true →
      (fetchData cache now timeout up).result = .ok (v.get "data")) ∧
    (timeout = 0 → ∀ v q, cache = .parsed v →
      jsNumber (v.get "timestamp") = some q → q ≤ (now : ℚ) →
      (fetchData cache now timeout up).upstreamCalled = true) := by
  have hmiss : ∀ h : cacheHit cache now timeout = false,
      fetchData cache now timeout up = doUpstream up := by
    intro h
    unfold fetchData
    rw [h]
    simp
  refine ⟨?_, ?_, ?_, ?_, ?_⟩
  · cases hhit : cacheHit cache now timeout with
    | false =>
      rw [hmiss hhit, doUpstream_called]
      simp
    | true =>
      cases cache with
      | parsed v =>
        unfold fetchData
        rw [hhit]
        simp
      | missing => exact absurd hhit (by simp [cacheHit])
      | empty => exact absurd hhit (by simp [cacheHit])
      | corrupt => exact absurd hhit (by simp [cacheHit])
  · intro v hv
    subst hv
    unfold cacheHit
    rw [Bool.and_eq_true]
    constructor
    · rintro ⟨ht, hm⟩
      refine ⟨ht, ?_⟩
      cases hj : jsNumber (v.get "timestamp") with
      | none => rw [hj] at hm; cases hm
      | some q =>
        rw [hj] at hm
        exact ⟨q, rfl, by simpa using hm⟩
    · rintro ⟨ht, q, hq, hlt⟩
      refine ⟨ht, ?_⟩
      rw [hq]
      simpa using hlt
  · intro h
    have : cacheHit cache now timeout = false := by
      rcases h with rfl | rfl | rfl <;> rfl
    rw [hmiss this, doUpstream_called]
  · intro v hv hhit
    subst hv
    unfold fetchData
    rw [hhit]
    simp
  · intro ht v q hv hq hle
    subst ht
    subst hv
    have hfalse : cacheHit (.parsed v) now 0 = false := by
      have hnlt : ¬((now : ℚ) - q < ((0 : ℤ) : ℚ)) := by
        push_cast
        linarith
      simp [cacheHit, hq, hnlt]
      exact fun _ => hle
    rw [hmiss hfalse, doUpstream_called]

/-- Witness for the amended C3: a missing cache file forces an upstream
call, while a parsed record one millisecond old with a one-minute
timeout is served from cache. -/
theorem fetchData_cache_policy_witness :
    (fetchData .missing 0 60000 (.success (.str "u"))).upstreamCalled = true ∧
    cacheHit (.parsed (.obj [("timestamp", .num 1), ("data", .str "d")]))
      2 60000 = true ∧
    (fetchData (.parsed (.obj [("timestamp", .num 1), ("data", .str "d")]))
      2 60000 (.success (.str "u"))).result = .ok (.str "d") := by
  refine ⟨(fetchData_cache_policy .missing 0 60000
      (.success (.str "u"))).2.2.1 (Or.inl rfl), by rfl, ?_⟩
  exact (fetchData_cache_policy _ 2 60000 (.success (.str "u"))).2.2.2.1 _ rfl (by rfl)

/-- C4: when the upstream HTTP response has a non-success status,
`fetchData` fails with an error carrying that status code and the
response body text (the status text when the body is empty), the
failure propagates to the caller, and no cached data is returned nor
written. -/
theorem fetchData_upstream_error (cache : CacheState) (now timeout : ℤ)
    (status : ℕ) (body stext : String)
    (h : cacheHit cache now timeout = false) :
    (fetchData cache now timeout (.httpError status body stext)).result =
      .error (.upstream status (if body = "" then stext else body)) ∧
    (fetchData cache now timeout
      (.httpError status body stext)).upstreamCalled = true ∧
    (fetchData cache now timeout (.httpError status body stext)).cacheWrite =
      none := by
  unfold fetchData
  rw [h]
  simp only [Bool.false_eq_true, if_false]
  exact ⟨rfl, rfl, rfl⟩

/-- Witness for C4: with no usable cache, a 503 with body text
propagates as an upstream error carrying the status and body. -/
theorem fetchData_upstream_error_witness :
    (fetchData .missing 0 0 (.httpError 503 "boom" "Service Unavailable")).result =
      .error (.upstream 503 "boom") ∧
    (fetchData .missing 0 0
      (.httpError 503 "boom" "Service Unavailable")).upstreamCalled = true := by
  have h := fetchData_upstream_error .missing 0 0 503 "boom"
    "Service Unavailable" (by rfl)
  refine ⟨?_, h.2.1⟩
  rw [h.1, if_neg (by decide)]

end EZee
